import Mathlib

/-!
# mqtt_sensor_exporter: the live sensor registry

A shallow embedding of `esp8266.go` (registry, decoder, eviction sweep, exporter binding)
and of the message loop of `StartMqtt` in `main.go` (topic router).

Modelling conventions
* `uint64`, `uint32` values are natural numbers; a byte is a `Fin 256`.
* A `float32` or `float64` is represented by its IEEE-754 bit pattern, which is what
  `binary.Read` fills in and what `Gauge.Set` stores; `float32Value` and `float64Value` give
  the value a bit pattern denotes.
* `time.Time` and `time.Duration` are integers counting nanoseconds; the `float64` seconds
  of a duration are held exactly, as a whole number of units of `2^-82` seconds.
* Go maps are association lists with unique keys (`AList`).
* Every call of `time.Now()` is an explicit argument.
-/

namespace MqttSensorExporter

/-! ## Data model (`esp8266.go`, lines 14-35) -/

/-- One byte of an MQTT payload. -/
abbrev Byte := Fin 256

/-- The struct `Ds28b20Temperautre`: `unix_time uint64`, `temperature float32` (held as its
bit pattern) and `gap uint32`. -/
structure Ds28b20Temperautre where
  unix_time : Nat
  temperature : Nat
  gap : Nat
deriving DecidableEq, Repr

/-- The struct `ESP8266_obj`: the map `sensor` from sensor address to last reading and the
time `LastRescan` of the last update. A nil map and an empty map are both the empty list. -/
structure ESP8266_obj where
  sensor : AList (fun _ : Nat => Ds28b20Temperautre)
  LastRescan : Int
deriving DecidableEq

/-! ### Floating point -/

/-- The value denoted by a floating-point datum: not a number, an infinity, or a signed
rational (the sign is kept for zero). -/
inductive FloatValue where
  | nan
  | inf (neg : Bool)
  | finite (neg : Bool) (mag : ℚ)

/-- The value of the IEEE-754 binary32 datum with bit pattern `b` (`math.Float32frombits`). -/
def float32Value (b : Nat) : FloatValue :=
  let s : Nat := b / 2 ^ 31 % 2
  let e : Nat := b / 2 ^ 23 % 2 ^ 8
  let m : Nat := b % 2 ^ 23
  if e = 255 then (if m = 0 then FloatValue.inf (decide (s = 1)) else FloatValue.nan)
  else if e = 0 then FloatValue.finite (decide (s = 1)) ((m : ℚ) / 2 ^ 149)
  else FloatValue.finite (decide (s = 1)) (((2 ^ 23 + m : Nat) : ℚ) * 2 ^ e / 2 ^ 150)

/-- The value of the IEEE-754 binary64 datum with bit pattern `b` (`math.Float64frombits`). -/
def float64Value (b : Nat) : FloatValue :=
  let s : Nat := b / 2 ^ 63 % 2
  let e : Nat := b / 2 ^ 52 % 2 ^ 11
  let m : Nat := b % 2 ^ 52
  if e = 2047 then (if m = 0 then FloatValue.inf (decide (s = 1)) else FloatValue.nan)
  else if e = 0 then FloatValue.finite (decide (s = 1)) ((m : ℚ) / 2 ^ 1074)
  else FloatValue.finite (decide (s = 1)) (((2 ^ 52 + m : Nat) : ℚ) * 2 ^ e / 2 ^ 1075)

/-- Normalisation of a subnormal binary32 significand: shift left until bit 23 is set,
counting the shifts. -/
def normalize : Nat → Nat → Nat → Nat × Nat
  | 0, m, k => (m, k)
  | fuel + 1, m, k => if 2 ^ 23 ≤ m then (m, k) else normalize fuel (2 * m) (k + 1)

/-- A `float64`, the type of the value handed to `Gauge.Set`, as its IEEE-754 binary64 bit
pattern. -/
structure Float64 where
  bits : Nat
deriving DecidableEq, Repr

/-- The conversion `float64(data.temperature)` of a `float32`, on bit patterns: sign and
significand are kept, the exponent is re-biased, a subnormal is normalised, a NaN becomes a
quiet NaN. -/
def float64 (temperature : Nat) : Float64 :=
  let s := temperature / 2 ^ 31 % 2
  let e := temperature / 2 ^ 23 % 2 ^ 8
  let m := temperature % 2 ^ 23
  if e = 255 then
    ⟨s * 2 ^ 63 + 2047 * 2 ^ 52 + (if m = 0 then 0 else 2 ^ 51 + m * 2 ^ 29 % 2 ^ 51)⟩
  else if e = 0 then
    if m = 0 then ⟨s * 2 ^ 63⟩
    else
      let (m1, k) := normalize 23 m 0
      ⟨s * 2 ^ 63 + (897 - k) * 2 ^ 52 + (m1 - 2 ^ 23) * 2 ^ 29⟩
  else ⟨s * 2 ^ 63 + (e + 896) * 2 ^ 52 + m * 2 ^ 29⟩

/-- The global state: the map `nodes` and the series of the gauge vector
`messagesPublished`, keyed by the label values `(mac, address)`. -/
structure State where
  nodes : AList (fun _ : Nat => ESP8266_obj)
  messagesPublished : AList (fun _ : String × String => Float64)
deriving DecidableEq

/-- The state after `init`: `nodes = make(map...)` and a gauge vector without series. -/
def State.init : State := ⟨∅, ∅⟩

/-! ## `fmt.Sprintf("%X", v)` -/

/-- The digit table `0123456789ABCDEF` of `fmt`. -/
def udigit (d : Nat) : Char :=
  match d with
  | 0 => '0' | 1 => '1' | 2 => '2' | 3 => '3' | 4 => '4' | 5 => '5' | 6 => '6' | 7 => '7'
  | 8 => '8' | 9 => '9' | 10 => 'A' | 11 => 'B' | 12 => 'C' | 13 => 'D' | 14 => 'E' | _ => 'F'

/-- The digit loop of `fmt` for base 16: `for u >= 16 { buf[i] = digits[u&0xF]; u >>= 4 }`
followed by `buf[i] = digits[u]`. The first argument bounds the number of iterations. -/
def fmtXLoop : Nat → Nat → List Char → List Char
  | 0, u, buf => udigit u :: buf
  | fuel + 1, u, buf =>
    if 16 ≤ u then fmtXLoop fuel (u / 16) (udigit (u % 16) :: buf) else udigit u :: buf

/-- The string `fmt.Sprintf("%X", v)`: upper-case hexadecimal without leading zeros. -/
def fmtX (v : Nat) : String := String.mk (fmtXLoop v v [])

/-! ## `binary.Read` on a `bytes.Reader` -/

/-- The errors of `io.ReadFull`. -/
inductive ReadError where
  | EOF
  | ErrUnexpectedEOF
deriving DecidableEq, Repr

/-- The value `binary.LittleEndian.Uint64(bs)` (or `Uint32`) of a byte slice. -/
def littleEndian : List Byte → Nat
  | [] => 0
  | b :: bs => b.val + 256 * littleEndian bs

/-- The call `io.ReadFull(r, bs)` with `len(bs) = n` on a `bytes.Reader` whose unread bytes
are `r`: the bytes read or the error, and the unread bytes afterwards. A short read consumes
what is left. -/
def ReadFull (r : List Byte) (n : Nat) : Except ReadError (List Byte) × List Byte :=
  if n ≤ r.length then (.ok (r.take n), r.drop n)
  else if r.length = 0 then (.error .EOF, [])
  else (.error .ErrUnexpectedEOF, [])

/-- The call `binary.Read(buf, binary.LittleEndian, &data)` for a fixed-size `data` of `n`
bytes: the new value of `data` (unchanged when `io.ReadFull` fails), the reader afterwards,
and the error returned. -/
def binaryRead (buf : List Byte) (n : Nat) (data : Nat) : Nat × List Byte × Option ReadError :=
  match ReadFull buf n with
  | (.ok bs, rest) => (littleEndian bs, rest, none)
  | (.error e, rest) => (data, rest, some e)

/-! ## `time.Time`, `time.Duration` and `Duration.Seconds`

A `time.Time` is a reading of the monotonic clock in nanoseconds, as `time.Now()` returns
it, and a `time.Duration` is an `int64` count of nanoseconds.

A `float64` computed by `Seconds()` is held as the whole number of units of `2^-82` seconds
it equals. Every such value is a whole number of units: `float64(nsec)/1e9` is zero or at
least `1e-9`, which lies between `2^-30` and `2^-29`, so that it and the sum with the whole
seconds are multiples of `2^(-30-52)`. -/

/-- The number of binary digits of `x`; the first argument bounds the number of steps. -/
def bitLen : Nat → Nat → Nat
  | 0, _ => 0
  | fuel + 1, x => if x = 0 then 0 else bitLen fuel (x / 2) + 1

/-- The integer nearest to `n / d`, the even one of two that are equally near. -/
def roundHalfEven (n d : Nat) : Nat :=
  let q := n / d
  let r := n % d
  if 2 * r < d then q else if d < 2 * r then q + 1 else if q % 2 = 0 then q else q + 1

/-- The `float64` nearest to the quotient `n / d`, ties to even, in units of `2^-82`, for a
quotient that is a whole number of units or at least `2^52` units: of the binary digits of
the quotient a `float64` keeps the leading 53. -/
def round53 (n d : Nat) : Nat :=
  let sh := bitLen (n / d) (n / d) - 53
  roundHalfEven n (d * 2 ^ sh) * 2 ^ sh

/-- The rounding `round53` for a quotient of either sign; rounding is symmetric. -/
def roundFloat (x : Int) (d : Nat) : Int :=
  if x < 0 then -((round53 x.natAbs d : Nat) : Int) else ((round53 x.natAbs d : Nat) : Int)

/-- The `time.Duration` for the integer `x`: `x` itself in the range of `int64`, otherwise
the nearer of `minDuration` and `maxDuration`. -/
def Duration.saturate (x : Int) : Int := max (-(2 ^ 63)) (min (2 ^ 63 - 1) x)

/-- The method `Time.Sub`: the difference `t - u`, replaced by `maxDuration` or
`minDuration` when it is out of range. -/
def Time.Sub (t u : Int) : Int := Duration.saturate (t - u)

/-- The method `Duration.Seconds`: `sec := d / Second; nsec := d % Second;
return float64(sec) + float64(nsec)/1e9`, with Go's truncating `/` and `%`. The
conversions `float64(sec)` and `float64(nsec)` are exact, the quotient and the sum are
rounded. The result is in units of `2^-82` seconds, and `d` is read as a `Duration`. -/
def Duration.Seconds (d : Int) : Int :=
  let d := Duration.saturate d
  let sec := d.tdiv ((10 ^ 9 : Nat) : Int)
  let nsec := d.tmod ((10 ^ 9 : Nat) : Int)
  roundFloat (sec * ((2 ^ 82 : Nat) : Int) + roundFloat (nsec * ((2 ^ 82 : Nat) : Int)) (10 ^ 9)) 1

/-! ## The registry operations (`esp8266.go`, lines 44-112) -/

/-- The method `UpdateSensor`: `esp.sensor[Address] = Sensor`. -/
def ESP8266_obj.UpdateSensor (esp : ESP8266_obj) (Address : Nat) (Sensor : Ds28b20Temperautre) :
    ESP8266_obj :=
  { esp with sensor := esp.sensor.insert Address Sensor }

/-- The unpacking of lines 92-97: three `binary.Read` calls on one reader, whose errors
are discarded. Returns `DS18B20Address` and `data`. -/
def unpack (payload : List Byte) : Nat × Ds28b20Temperautre :=
  let buf := payload
  let (DS18B20Address, buf, _) := binaryRead buf 8 0
  let (unix_time, buf, _) := binaryRead buf 8 0
  let (temperature, _, _) := binaryRead buf 4 0
  (DS18B20Address, { unix_time := unix_time, temperature := temperature, gap := 0 })

/-- The function `DS18b20ReadTemperature(mac, payload)`; `now` is the value of `time.Now()`
on line 106. -/
def DS18b20ReadTemperature (mac : Nat) (payload : List Byte) (now : Int) (st : State) : State :=
  let (DS18B20Address, data) := unpack payload
  let CurNode : ESP8266_obj :=
    match st.nodes.lookup mac with
    | some node => node
    | none => { sensor := ∅, LastRescan := 0 }
  let CurNode := CurNode.UpdateSensor DS18B20Address data
  let CurNode := { CurNode with LastRescan := now }
  { nodes := st.nodes.insert mac CurNode
    messagesPublished :=
      st.messagesPublished.insert (fmtX mac, fmtX DS18B20Address) (float64 data.temperature) }

/-- One iteration of the loop body of `RemoveSensorFromNode` (lines 57-65):
`DeleteLabelValues(StrMAC, StrDS18B20MAC)` and `delete(nodes, mac)`. The log line written
when no series was deleted is not part of the state. -/
def removeSensor (mac : Nat) (st : State) (DS18B20Address : Nat) : State :=
  { nodes := st.nodes.erase mac
    messagesPublished := st.messagesPublished.erase (fmtX mac, fmtX DS18B20Address) }

/-- The function `RemoveSensorFromNode(mac, node)`; `now` is the value of `time.Now()` on
line 53 and `timeout` is `conf.Ds18b20Timeout`. -/
def RemoveSensorFromNode (mac : Nat) (node : ESP8266_obj) (now timeout : Int) (st : State) :
    State :=
  let elapsed := Time.Sub now node.LastRescan
  if Duration.Seconds elapsed > Duration.Seconds timeout then
    node.sensor.keys.foldl (removeSensor mac) st
  else st

/-- The body of the ticker loop of `ESP8266init` (lines 78-80): `RemoveSensorFromNode` for
every entry of `nodes`, in the order `order` in which `range` yields them; `now mac` is the
clock reading of the call for `mac`. -/
def sweep (order : List (Sigma fun _ : Nat => ESP8266_obj)) (now : Nat → Int) (timeout : Int)
    (st : State) : State :=
  order.foldl (fun st e => RemoveSensorFromNode e.1 e.2 (now e.1) timeout st) st

/-! ## `strconv.ParseInt(s, 16, 64)` -/

/-- The two error kinds of `strconv.NumError`. -/
inductive NumError where
  | ErrSyn
  | ErrRange
deriving DecidableEq, Repr

/-- The digit of a byte in `ParseUint`: `c - '0'` for `'0' <= c <= '9'`,
`lower(c) - 'a' + 10` for `'a' <= lower(c) <= 'z'` with `lower(c) = c | 0x20`, and no digit
otherwise. A character outside ASCII is encoded by bytes above `0x7f`, none of which is a
digit. -/
def digitVal (c : Char) : Option Nat :=
  let b := c.toNat
  if 48 ≤ b ∧ b ≤ 57 then some (b - 48)
  else if b < 128 ∧ 97 ≤ (b ||| 32) ∧ (b ||| 32) ≤ 122 then some ((b ||| 32) - 97 + 10)
  else none

/-- The digit loop of `ParseUint(s, 16, 64)` with `cutoff = maxUint64/16 + 1` and
`maxVal = 1<<64 - 1`; `n` is the `uint64` accumulator. -/
def ParseUintLoop : List Char → Nat → Except NumError Nat
  | [], n => .ok n
  | c :: cs, n =>
    match digitVal c with
    | none => .error .ErrSyn
    | some d =>
      if 16 ≤ d then .error .ErrSyn
      else if (2 ^ 64 - 1) / 16 + 1 ≤ n then .error .ErrRange
      else
        let n16 := n * 16 % 2 ^ 64
        let n1 := (n16 + d) % 2 ^ 64
        if n1 < n16 ∨ 2 ^ 64 - 1 < n1 then .error .ErrRange else ParseUintLoop cs n1

/-- The call `strconv.ParseUint(s, 16, 64)`. -/
def ParseUint (s : List Char) : Except NumError Nat :=
  if s = [] then .error .ErrSyn else ParseUintLoop s 0

/-- The call `strconv.ParseInt(s, 16, 64)`: an optional sign, `ParseUint` on the rest, and
the range check against `1 << 63`. After a range error of `ParseUint` the value is
`maxVal`, so the range check fails as well. -/
def ParseInt (s : List Char) : Except NumError Int :=
  match s with
  | [] => .error .ErrSyn
  | c :: t =>
    let neg := decide (c = '-')
    let s1 := if c = '+' ∨ c = '-' then t else s
    match ParseUint s1 with
    | .error .ErrSyn => .error .ErrSyn
    | r =>
      let un : Nat := match r with
        | .ok v => v
        | .error _ => 2 ^ 64 - 1
      if ¬ neg ∧ 2 ^ 63 ≤ un then .error .ErrRange
      else if neg ∧ 2 ^ 63 < un then .error .ErrRange
      else .ok (if neg then -(un : Int) else (un : Int))

/-- The conversion `uint64(mac)` of an `int64`. -/
def uint64 (mac : Int) : Nat := (mac % 2 ^ 64).toNat

/-! ## The regular expression `ReTemperature` (`main.go`, line 101) -/

/-- The pieces of the pattern `<Topic>/(?P<Esp_MAC>[0-9ABCDEF]+)/temperature`: a literal
character, or the capture group `Esp_MAC`. -/
inductive Tok where
  | lit (c : Char)
  | Esp_MAC
deriving DecidableEq, Repr

/-- The character class `[0-9ABCDEF]`. -/
def isMacChar (c : Char) : Bool :=
  c ∈ ['0', '1', '2', '3', '4', '5', '6', '7', '8', '9', 'A', 'B', 'C', 'D', 'E', 'F']

/-- The characters with a special meaning in a Go regular expression (those escaped by
`regexp.QuoteMeta`). -/
def regexMeta (c : Char) : Bool :=
  c ∈ ['\\', '.', '+', '*', '?', '(', ')', '|', '[', ']', '\x7b', '\x7d', '^', '$']

/-- The literal pieces for a text without special characters. -/
def lits (s : List Char) : List Tok := s.map Tok.lit

/-- The expression `regexp.MustCompile(fmt.Sprintf("%s/(?P<Esp_MAC>[0-9ABCDEF]+)/temperature",
conf.Topic))` for a `conf.Topic` without special characters, each of which then stands for
itself. A `conf.Topic` with special characters is outside this model (`none`). -/
def ReTemperature (Topic : String) : Option (List Tok) :=
  if Topic.toList.any regexMeta then none
  else some (lits Topic.toList ++ Tok.lit '/' :: Tok.Esp_MAC :: lits "/temperature".toList)

/-- The greedy repetition `[0-9ABCDEF]+` followed by the continuation `k`: the longest
run is tried first, then shorter ones, down to one character. On success the matched text
and the captures, with the run as first capture. -/
def tryRun (k : List Char → Option (List Char × List (List Char))) (s : List Char) :
    Nat → Option (List Char × List (List Char))
  | 0 => none
  | n + 1 =>
    match k (s.drop (n + 1)) with
    | some (m, caps) => some (s.take (n + 1) ++ m, s.take (n + 1) :: caps)
    | none => tryRun k s n

/-- Matching of the pieces at the start of `s` (leftmost-first, backtracking): the matched
text and the captured groups. -/
def matchToks : List Tok → List Char → Option (List Char × List (List Char))
  | [], _ => some ([], [])
  | Tok.lit c :: ts, s =>
    match s with
    | [] => none
    | d :: s1 =>
      if c = d then
        match matchToks ts s1 with
        | some (m, caps) => some (d :: m, caps)
        | none => none
      else none
  | Tok.Esp_MAC :: ts, s => tryRun (matchToks ts) s (s.takeWhile isMacChar).length

/-- The method `FindStringSubmatch`: the leftmost match anywhere in `s`, as the slice
`group` of the whole match followed by the captured groups; `none` is the nil slice. -/
def FindStringSubmatch (re : List Tok) : List Char → Option (List (List Char))
  | [] =>
    match matchToks re [] with
    | some (m, caps) => some (m :: caps)
    | none => none
  | c :: s =>
    match matchToks re (c :: s) with
    | some (m, caps) => some (m :: caps)
    | none => FindStringSubmatch re s

/-! ## The message loop of `StartMqtt` (`main.go`, lines 104-119) -/

/-- An MQTT message: `msg.Topic()` and `msg.Payload()`. -/
structure Message where
  topic : String
  payload : List Byte

/-- What the loop body decides from the topic: call `DS18b20ReadTemperature` with `mac`,
end the process through `log.Fatalf`, or do nothing. -/
inductive Route where
  | call (mac : Nat)
  | fatal
  | ignore
deriving DecidableEq, Repr

/-- Lines 108-113 and the argument `uint64(mac)` of line 115. -/
def route (re : List Tok) (topic : String) : Route :=
  match FindStringSubmatch re topic.toList with
  | some group =>
    match ParseInt (group.getD 1 []) with
    | .error _ => Route.fatal
    | .ok mac => Route.call (uint64 mac)
  | none => Route.ignore

/-- The outcome of handling messages: the loop goes on in a state, or the process has
ended with `os.Exit(1)`. -/
inductive Step where
  | next (st : State)
  | exit

/-- One iteration of the loop of lines 104-119 for the message `msg`. -/
def handleMessage (re : List Tok) (msg : Message) (now : Int) (st : State) : Step :=
  match route re msg.topic with
  | Route.call mac => Step.next (DS18b20ReadTemperature mac msg.payload now st)
  | Route.fatal => Step.exit
  | Route.ignore => Step.next st

/-- The loop of lines 104-119 over the messages taken from `queue`, each with the clock
reading of its update. -/
def messageLoop (re : List Tok) : List (Message × Int) → State → Step
  | [], st => Step.next st
  | (msg, now) :: rest, st =>
    match handleMessage re msg now st with
    | Step.next st1 => messageLoop re rest st1
    | Step.exit => Step.exit

/-! ## Notions used to state the properties -/

/-- The exact sum `float64(sec) + float64(nsec)/1e9`, before it is rounded, for a duration
of `a` nanoseconds that is not negative. -/
def secondsArg (a : Nat) : Nat :=
  a / 10 ^ 9 * 2 ^ 82 + round53 (a % 10 ^ 9 * 2 ^ 82) (10 ^ 9)

/-- The unsigned value of a string of hexadecimal digits, most significant digit first. -/
def hexValue (h : List Char) : Nat :=
  h.foldl (fun n c => n * 16 + (digitVal c).getD 0) 0

/-- The `n` bytes `binary.LittleEndian.PutUint64` (or `PutUint32`) writes for `v`, least
significant byte first. -/
def putLittleEndian : Nat → Nat → List Byte
  | 0, _ => []
  | n + 1, v => ⟨v % 256, Nat.mod_lt v (by decide)⟩ :: putLittleEndian n (v / 256)

/-- The payload layout of the specification: the sensor address in 8 bytes, the unix
timestamp in 8 bytes and the bit pattern of the 32-bit float temperature in 4 bytes, each
little-endian. -/
def encode (DS18B20Address : Nat) (data : Ds28b20Temperautre) : List Byte :=
  putLittleEndian 8 DS18B20Address ++ putLittleEndian 8 data.unix_time
    ++ putLittleEndian 4 data.temperature

/-- The payload of the scenario of the specification: address `1`, timestamp `1000` and
temperature `21.5` (bit pattern `0x41AC0000`) in the fixed layout. -/
def scenarioPayload : List Byte :=
  [1, 0, 0, 0, 0, 0, 0, 0, 0xE8, 3, 0, 0, 0, 0, 0, 0, 0, 0, 0xAC, 0x41]

/-- An operation on the registry: an update `DS18b20ReadTemperature(mac, payload)` at the
time `now`, or a sweep, the ticker body run over the entries of `nodes` in the order
`order` with the clock readings `now`. -/
inductive Op where
  | update (mac : Nat) (payload : List Byte) (now : Int)
  | sweep (order : List (Sigma fun _ : Nat => ESP8266_obj)) (now : Nat → Int)

/-- The state `st` is reached from the state after `init` by the operations `ops`, the
latest first, run one after the other with the configured `timeout`; a sweep visits all
entries of `nodes`, in any order. -/
inductive Run (timeout : Int) : List Op → State → Prop
  | init : Run timeout [] State.init
  | update {ops : List Op} {st : State} (mac : Nat) (payload : List Byte) (now : Int) :
      Run timeout ops st →
        Run timeout (Op.update mac payload now :: ops) (DS18b20ReadTemperature mac payload now st)
  | sweep {ops : List Op} {st : State} (order : List (Sigma fun _ : Nat => ESP8266_obj))
      (now : Nat → Int) :
      Run timeout ops st → order.Perm st.nodes.entries →
        Run timeout (Op.sweep order now :: ops) (sweep order now timeout st)

/-- The states reached from the empty registry and exporter by a sequence of updates and
sweeps. -/
def Reachable (timeout : Int) (st : State) : Prop := ∃ ops, Run timeout ops st

/-- The reading stored by the latest update for the pair `(mac, a)` among the operations
`ops` (latest first). -/
def lastStored : List Op → Nat → Nat → Option Ds28b20Temperautre
  | [], _, _ => none
  | Op.update m payload _ :: ops, mac, a =>
    if m = mac ∧ (unpack payload).1 = a then some (unpack payload).2 else lastStored ops mac a
  | Op.sweep _ _ :: ops, mac, a => lastStored ops mac a

/-- Every sensor entry of the registry has its series, with the temperature of the stored
reading as value. -/
def Exported (st : State) : Prop :=
  ∀ (mac : Nat) (node : ESP8266_obj) (a : Nat) (r : Ds28b20Temperautre),
    st.nodes.lookup mac = some node → node.sensor.lookup a = some r →
      st.messagesPublished.lookup (fmtX mac, fmtX a) = some (float64 r.temperature)

/-- Every node of the registry holds at least one sensor. -/
def Populated (st : State) : Prop :=
  ∀ (mac : Nat) (node : ESP8266_obj), st.nodes.lookup mac = some node → node.sensor.keys ≠ []

/-- The state of the eviction scenario of the specification: two updates of node `10`, for
sensor `1` and then sensor `2`, both at time `0`. -/
def twoSensors : State :=
  DS18b20ReadTemperature 10 (encode 2 { unix_time := 1001, temperature := 0x41B00000, gap := 0 }) 0
    (DS18b20ReadTemperature 10
      (encode 1 { unix_time := 1000, temperature := 0x41AC0000, gap := 0 }) 0 State.init)

/-- A state with a stale node `10` (two sensors, last update at time `0`) and a fresh node
`11` (one sensor, last update at time `50`). -/
def staleAndFresh : State :=
  DS18b20ReadTemperature 11 (encode 1 { unix_time := 1050, temperature := 0x41A00000, gap := 0 })
    50 twoSensors

/-- The entry of node `10` in `twoSensors`. -/
def twoSensorsNode : ESP8266_obj :=
  { sensor :=
      ((∅ : AList (fun _ : Nat => Ds28b20Temperautre)).insert 1
          { unix_time := 1000, temperature := 0x41AC0000, gap := 0 }).insert 2
        { unix_time := 1001, temperature := 0x41B00000, gap := 0 }
    LastRescan := 0 }

/-- Whether the process has ended. -/
def Step.exited : Step → Bool
  | Step.next _ => false
  | Step.exit => true

/-- The state in which the loop goes on, if it does. -/
def Step.state : Step → Option State
  | Step.next st => some st
  | Step.exit => none

/-! # Properties -/

/-! ## The conversion `float64(x)` is exact -/

theorem normalize_spec : ∀ (fuel m k : Nat), 0 < m → m < 2 ^ 24 → 2 ^ 23 ≤ m * 2 ^ fuel →
    2 ^ 23 ≤ (normalize fuel m k).1 ∧ (normalize fuel m k).1 < 2 ^ 24
      ∧ k ≤ (normalize fuel m k).2 ∧ (normalize fuel m k).2 ≤ k + fuel
      ∧ (normalize fuel m k).1 = m * 2 ^ ((normalize fuel m k).2 - k) := by
  intro fuel
  induction fuel with
  | zero =>
    intro m k h0 h24 h23
    simp only [normalize]
    refine ⟨by simpa using h23, h24, le_rfl, le_rfl, by simp⟩
  | succ fuel ih =>
    intro m k h0 h24 h23
    simp only [normalize]
    split
    · rename_i hm
      refine ⟨hm, h24, le_rfl, by omega, by simp⟩
    · rename_i hm
      have hshift : 2 * m * 2 ^ fuel = m * 2 ^ (fuel + 1) := by
        rw [pow_succ]
        ring
      have hrec := ih (2 * m) (k + 1) (by omega) (by omega) (by rw [hshift]; exact h23)
      obtain ⟨h1, h2, h3, h4, h5⟩ := hrec
      refine ⟨h1, h2, by omega, by omega, ?_⟩
      rw [h5]
      have hk : (normalize fuel (2 * m) (k + 1)).2 - k
          = ((normalize fuel (2 * m) (k + 1)).2 - (k + 1)) + 1 := by
        omega
      rw [hk, pow_succ]
      ring

theorem fields64 (s E M : Nat) (hs : s < 2) (hE : E < 2048) (hM : M < 2 ^ 52) :
    (s * 2 ^ 63 + E * 2 ^ 52 + M) / 2 ^ 63 % 2 = s
      ∧ (s * 2 ^ 63 + E * 2 ^ 52 + M) / 2 ^ 52 % 2 ^ 11 = E
      ∧ (s * 2 ^ 63 + E * 2 ^ 52 + M) % 2 ^ 52 = M := by
  norm_num at hM ⊢
  omega


theorem float64Value_fields (s E M : Nat) (hs : s < 2) (hE : E < 2048) (hM : M < 2 ^ 52) :
    float64Value (s * 2 ^ 63 + E * 2 ^ 52 + M)
      = if E = 2047 then (if M = 0 then FloatValue.inf (decide (s = 1)) else FloatValue.nan)
        else if E = 0 then FloatValue.finite (decide (s = 1)) ((M : ℚ) / 2 ^ 1074)
        else
          FloatValue.finite (decide (s = 1)) (((2 ^ 52 + M : Nat) : ℚ) * 2 ^ E / 2 ^ 1075) := by
  obtain ⟨f1, f2, f3⟩ := fields64 s E M hs hE hM
  simp only [float64Value, f1, f2, f3]

/-- The conversion `float64(x)` is exact: the result denotes the value of `x`. -/
theorem float64_exact (b : Nat) :
    float64Value (float64 b).bits = float32Value b := by
  have hs : b / 2 ^ 31 % 2 < 2 := Nat.mod_lt _ (by norm_num)
  have he : b / 2 ^ 23 % 2 ^ 8 < 2 ^ 8 := Nat.mod_lt _ (by norm_num)
  have hm : b % 2 ^ 23 < 2 ^ 23 := Nat.mod_lt _ (by norm_num)
  simp only [float64, float32Value]
  generalize b / 2 ^ 31 % 2 = s at hs ⊢
  generalize b / 2 ^ 23 % 2 ^ 8 = e at he ⊢
  generalize b % 2 ^ 23 = m at hm ⊢
  by_cases he255 : e = 255
  · rw [if_pos he255, if_pos he255]
    by_cases hm0 : m = 0
    · rw [if_pos hm0, if_pos hm0]
      have := float64Value_fields s 2047 0 hs (by norm_num) (by norm_num)
      simpa using this
    · rw [if_neg hm0, if_neg hm0]
      have hlt : 2 ^ 51 + m * 2 ^ 29 % 2 ^ 51 < 2 ^ 52 := by
        have := Nat.mod_lt (m * 2 ^ 29) (show 0 < 2 ^ 51 by norm_num)
        omega
      rw [float64Value_fields s 2047 _ hs (by norm_num) hlt, if_pos rfl, if_neg (by omega)]
  · rw [if_neg he255, if_neg he255]
    by_cases he0 : e = 0
    · rw [if_pos he0, if_pos he0]
      by_cases hm0 : m = 0
      · rw [if_pos hm0]
        have := float64Value_fields s 0 0 hs (by norm_num) (by norm_num)
        simp only [zero_mul, add_zero] at this
        rw [this, hm0]
        simp
      · rw [if_neg hm0]
        obtain ⟨h1, h2, _, h4, h5⟩ := normalize_spec 23 m 0 (by omega) (by omega)
          (by
            have : 1 * 2 ^ 23 ≤ m * 2 ^ 23 := Nat.mul_le_mul_right _ (by omega)
            simpa using this)
        generalize normalize 23 m 0 = r at h1 h2 h4 h5 ⊢
        obtain ⟨m1, k⟩ := r
        simp only [Nat.sub_zero, zero_add] at h1 h2 h4 h5 ⊢
        have hM : (m1 - 2 ^ 23) * 2 ^ 29 < 2 ^ 52 := by omega
        rw [float64Value_fields s (897 - k) _ hs (by omega) hM, if_neg (by omega),
          if_neg (by omega)]
        congr 1
        have hnat : 2 ^ 52 + (m1 - 2 ^ 23) * 2 ^ 29 = m * 2 ^ k * 2 ^ 29 := by
          rw [← h5]
          omega
        rw [hnat]
        push_cast
        have hexp : k + 29 + (897 - k) = 926 := by omega
        have hk : (2 : ℚ) ^ 926 = 2 ^ k * 2 ^ 29 * 2 ^ (897 - k) := by
          rw [← pow_add, ← pow_add, hexp]
        have h1075 : (2 : ℚ) ^ 1075 = 2 ^ 926 * 2 ^ 149 := by
          rw [← pow_add]
        rw [h1075, hk]
        field_simp
        ring
    · rw [if_neg he0, if_neg he0]
      have hM : m * 2 ^ 29 < 2 ^ 52 := by omega
      rw [float64Value_fields s (e + 896) _ hs (by omega) hM, if_neg (by omega),
        if_neg (by omega)]
      congr 1
      have hnat : 2 ^ 52 + m * 2 ^ 29 = (2 ^ 23 + m) * 2 ^ 29 := by ring
      rw [hnat]
      push_cast
      have h1075 : (2 : ℚ) ^ 1075 = 2 ^ 29 * 2 ^ 896 * 2 ^ 150 := by
        rw [← pow_add, ← pow_add]
      rw [h1075, pow_add]
      field_simp
      ring

/-! ## `Duration.Seconds`: monotone, and strict below `2^22` seconds -/

theorem bitLen_zero (fuel : Nat) : bitLen fuel 0 = 0 := by
  cases fuel <;> simp [bitLen]

theorem bitLen_spec (fuel : Nat) : ∀ x : Nat, x ≤ fuel →
    x < 2 ^ bitLen fuel x ∧ (x ≠ 0 → 2 ^ (bitLen fuel x - 1) ≤ x) := by
  induction fuel with
  | zero =>
    intro x hx
    obtain rfl : x = 0 := by omega
    simp [bitLen]
  | succ fuel ih =>
    intro x hx
    by_cases h0 : x = 0
    · subst h0
      simp [bitLen]
    · obtain ⟨h1, h2⟩ := ih (x / 2) (by omega)
      simp only [bitLen, if_neg h0, Nat.add_sub_cancel]
      refine ⟨?_, fun _ => ?_⟩
      · rw [pow_succ]
        omega
      · by_cases hx2 : x / 2 = 0
        · rw [hx2, bitLen_zero]
          simp
          omega
        · have := h2 hx2
          obtain ⟨k, hk⟩ : ∃ k, bitLen fuel (x / 2) = k + 1 := by
            cases hb : bitLen fuel (x / 2) with
            | zero => rw [hb] at h1; simp at h1; omega
            | succ k => exact ⟨k, rfl⟩
          rw [hk] at this ⊢
          rw [pow_succ]
          simp only [Nat.add_sub_cancel] at this
          omega

theorem bitLen_mono (x y : Nat) (h : x ≤ y) : bitLen x x ≤ bitLen y y := by
  by_cases hx : x = 0
  · subst hx
    rw [bitLen_zero]
    exact Nat.zero_le _
  · by_contra hlt
    have h1 := (bitLen_spec x x le_rfl).2 hx
    have h2 := (bitLen_spec y y le_rfl).1
    have h3 : 2 ^ bitLen y y ≤ 2 ^ (bitLen x x - 1) :=
      Nat.pow_le_pow_right (by norm_num) (by omega)
    omega

theorem bitLen_le (x k : Nat) (h : x < 2 ^ k) : bitLen x x ≤ k := by
  by_cases hx : x = 0
  · subst hx
    rw [bitLen_zero]
    exact Nat.zero_le _
  · by_contra hlt
    have h1 := (bitLen_spec x x le_rfl).2 hx
    have h3 : 2 ^ k ≤ 2 ^ (bitLen x x - 1) := Nat.pow_le_pow_right (by norm_num) (by omega)
    omega

theorem le_roundHalfEven (n d : Nat) : n / d ≤ roundHalfEven n d := by
  unfold roundHalfEven
  dsimp only
  split_ifs <;> omega

theorem roundHalfEven_le (n d : Nat) : roundHalfEven n d ≤ n / d + 1 := by
  unfold roundHalfEven
  dsimp only
  split_ifs <;> omega

theorem roundHalfEven_mul (k d : Nat) (hd : 0 < d) : roundHalfEven (k * d) d = k := by
  unfold roundHalfEven
  simp [Nat.mul_div_cancel _ hd, hd]

theorem roundHalfEven_mono (n1 n2 d : Nat) (h : n1 ≤ n2) :
    roundHalfEven n1 d ≤ roundHalfEven n2 d := by
  have hq : n1 / d ≤ n2 / d := Nat.div_le_div_right h
  rcases Nat.lt_or_eq_of_le hq with hlt | heq
  · exact le_trans (roundHalfEven_le n1 d) (le_trans hlt (le_roundHalfEven n2 d))
  · have e1 := Nat.div_add_mod n1 d
    have e2 := Nat.div_add_mod n2 d
    rw [← heq] at e2
    have hr : n1 % d ≤ n2 % d := by omega
    unfold roundHalfEven
    dsimp only
    rw [← heq]
    split_ifs <;> omega

theorem roundHalfEven_err (n D : Nat) (hpos : 0 < D) :
    2 * (roundHalfEven n D * D) ≤ 2 * n + D ∧ 2 * n ≤ 2 * (roundHalfEven n D * D) + D := by
  have e := Nat.div_add_mod n D
  have hD : n / D * D = D * (n / D) := Nat.mul_comm _ _
  have hlt := Nat.mod_lt n hpos
  unfold roundHalfEven
  dsimp only
  split_ifs <;> (try simp only [Nat.add_mul, Nat.one_mul]) <;> omega

theorem round53_mono (n1 n2 d : Nat) (hd : 0 < d) (h : n1 ≤ n2) :
    round53 n1 d ≤ round53 n2 d := by
  have hq : n1 / d ≤ n2 / d := Nat.div_le_div_right h
  have hL := bitLen_mono _ _ hq
  unfold round53
  dsimp only
  generalize hL1 : bitLen (n1 / d) (n1 / d) = L1 at hL
  generalize hL2 : bitLen (n2 / d) (n2 / d) = L2 at hL
  rcases Nat.lt_or_ge (L1 - 53) (L2 - 53) with hsh | hsh
  · -- different binades: a power of two lies between the two results
    have hb1 := (bitLen_spec (n1 / d) (n1 / d) le_rfl).1
    rw [hL1] at hb1
    have hn2 : n2 / d ≠ 0 := by
      intro h0
      rw [h0, bitLen_zero] at hL2
      omega
    have hb2 := (bitLen_spec (n2 / d) (n2 / d) le_rfl).2 hn2
    rw [hL2] at hb2
    have hD1 : 0 < d * 2 ^ (L1 - 53) := Nat.mul_pos hd (pow_pos (by norm_num) _)
    have hD2 : 0 < d * 2 ^ (L2 - 53) := Nat.mul_pos hd (pow_pos (by norm_num) _)
    -- upper bound for the first
    have hup : roundHalfEven n1 (d * 2 ^ (L1 - 53)) * 2 ^ (L1 - 53) ≤ 2 ^ L1 := by
      have hlt : n1 < 2 ^ L1 * d := (Nat.div_lt_iff_lt_mul hd).1 hb1
      have hsplit : 2 ^ L1 * d = 2 ^ (L1 - (L1 - 53)) * (d * 2 ^ (L1 - 53)) := by
        have : 2 ^ L1 = 2 ^ (L1 - (L1 - 53)) * 2 ^ (L1 - 53) := by
          rw [← pow_add]
          congr 1
          omega
        rw [this]
        ring
      have hm := roundHalfEven_mono n1 _ (d * 2 ^ (L1 - 53)) (le_of_lt (hsplit ▸ hlt))
      rw [roundHalfEven_mul _ _ hD1] at hm
      calc roundHalfEven n1 (d * 2 ^ (L1 - 53)) * 2 ^ (L1 - 53)
          ≤ 2 ^ (L1 - (L1 - 53)) * 2 ^ (L1 - 53) := Nat.mul_le_mul_right _ hm
        _ = 2 ^ L1 := by
          rw [← pow_add]
          congr 1
          omega
    have hlow : 2 ^ (L2 - 1) ≤ roundHalfEven n2 (d * 2 ^ (L2 - 53)) * 2 ^ (L2 - 53) := by
      have hle : 2 ^ (L2 - 1) * d ≤ n2 := (Nat.le_div_iff_mul_le hd).1 hb2
      have hsplit : 2 ^ (L2 - 1) * d = 2 ^ 52 * (d * 2 ^ (L2 - 53)) := by
        have : 2 ^ (L2 - 1) = 2 ^ 52 * 2 ^ (L2 - 53) := by
          rw [← pow_add]
          congr 1
          omega
        rw [this]
        ring
      have hm := roundHalfEven_mono _ n2 (d * 2 ^ (L2 - 53)) (hsplit ▸ hle)
      rw [roundHalfEven_mul _ _ hD2] at hm
      calc 2 ^ (L2 - 1) = 2 ^ 52 * 2 ^ (L2 - 53) := by
            rw [← pow_add]
            congr 1
            omega
        _ ≤ roundHalfEven n2 (d * 2 ^ (L2 - 53)) * 2 ^ (L2 - 53) := Nat.mul_le_mul_right _ hm
    have hpow : 2 ^ L1 ≤ 2 ^ (L2 - 1) := Nat.pow_le_pow_right (by norm_num) (by omega)
    exact le_trans hup (le_trans hpow hlow)
  · have hsh' : L1 - 53 = L2 - 53 := by omega
    rw [hsh']
    exact Nat.mul_le_mul_right _ (roundHalfEven_mono n1 n2 _ h)

theorem round53_err (n d : Nat) (hd : 0 < d) :
    2 * (round53 n d * d) ≤ 2 * n + d * 2 ^ (bitLen (n / d) (n / d) - 53)
      ∧ 2 * n ≤ 2 * (round53 n d * d) + d * 2 ^ (bitLen (n / d) (n / d) - 53) := by
  have h := roundHalfEven_err n (d * 2 ^ (bitLen (n / d) (n / d) - 53))
    (Nat.mul_pos hd (pow_pos (by norm_num) _))
  have hr : round53 n d * d
      = roundHalfEven n (d * 2 ^ (bitLen (n / d) (n / d) - 53))
          * (d * 2 ^ (bitLen (n / d) (n / d) - 53)) := by
    unfold round53
    dsimp only
    ring
  rw [hr]
  exact h

theorem round53_zero (d : Nat) : round53 0 d = 0 := by
  simp [round53, roundHalfEven, bitLen_zero]

theorem roundFloat_natCast (a d : Nat) : roundFloat (a : Int) d = (round53 a d : Nat) := by
  unfold roundFloat
  rw [if_neg (by omega)]
  simp

theorem roundFloat_neg_natCast (a d : Nat) :
    roundFloat (-(a : Int)) d = -((round53 a d : Nat) : Int) := by
  unfold roundFloat
  by_cases ha : a = 0
  · subst ha
    simp [round53_zero]
  · rw [if_pos (by omega)]
    simp

set_option maxRecDepth 100000 in
theorem round53_one_second : round53 (10 ^ 9 * 2 ^ 82) (10 ^ 9) = 2 ^ 82 := by decide

theorem secondsArg_mono (a1 a2 : Nat) (h : a1 ≤ a2) : secondsArg a1 ≤ secondsArg a2 := by
  unfold secondsArg
  have hq : a1 / 10 ^ 9 ≤ a2 / 10 ^ 9 := Nat.div_le_div_right h
  rcases Nat.lt_or_eq_of_le hq with hlt | heq
  · have hb : round53 (a1 % 10 ^ 9 * 2 ^ 82) (10 ^ 9) ≤ 2 ^ 82 := by
      rw [← round53_one_second]
      apply round53_mono _ _ _ (by norm_num)
      have := Nat.mod_lt a1 (show 0 < 10 ^ 9 by norm_num)
      exact Nat.mul_le_mul_right _ (le_of_lt this)
    have hstep : (a1 / 10 ^ 9 + 1) * 2 ^ 82 ≤ a2 / 10 ^ 9 * 2 ^ 82 :=
      Nat.mul_le_mul_right _ hlt
    have : a1 / 10 ^ 9 * 2 ^ 82 + 2 ^ 82 = (a1 / 10 ^ 9 + 1) * 2 ^ 82 := by ring
    omega
  · have e1 := Nat.div_add_mod a1 (10 ^ 9)
    have e2 := Nat.div_add_mod a2 (10 ^ 9)
    rw [← heq] at e2
    have hr : a1 % 10 ^ 9 ≤ a2 % 10 ^ 9 := by omega
    rw [← heq]
    apply Nat.add_le_add_left
    exact round53_mono _ _ _ (by norm_num) (Nat.mul_le_mul_right _ hr)

theorem Seconds_eq (d : Int) :
    Duration.Seconds d
      = if Duration.saturate d < 0 then
          -((round53 (secondsArg (Duration.saturate d).natAbs) 1 : Nat) : Int)
        else ((round53 (secondsArg (Duration.saturate d).natAbs) 1 : Nat) : Int) := by
  unfold Duration.Seconds secondsArg
  dsimp only
  generalize Duration.saturate d = x
  cases x with
  | ofNat a =>
    have h0 : ¬ (Int.ofNat a < 0) := by simp
    rw [if_neg h0]
    show roundFloat ((((a / 10 ^ 9 : Nat) : Int)) * ((2 ^ 82 : Nat) : Int)
      + roundFloat ((((a % 10 ^ 9 : Nat) : Int)) * ((2 ^ 82 : Nat) : Int)) (10 ^ 9)) 1 = _
    rw [← Int.natCast_mul, ← Int.natCast_mul, roundFloat_natCast, ← Int.natCast_add,
      roundFloat_natCast]
    rfl
  | negSucc k =>
    have h0 : Int.negSucc k < 0 := Int.negSucc_lt_zero k
    rw [if_pos h0]
    show roundFloat ((-(((k + 1) / 10 ^ 9 : Nat) : Int)) * ((2 ^ 82 : Nat) : Int)
      + roundFloat ((-(((k + 1) % 10 ^ 9 : Nat) : Int)) * ((2 ^ 82 : Nat) : Int)) (10 ^ 9)) 1 = _
    rw [neg_mul, neg_mul, ← Int.natCast_mul, ← Int.natCast_mul, roundFloat_neg_natCast,
      ← neg_add, ← Int.natCast_add, roundFloat_neg_natCast]
    rfl

theorem saturate_mono (x y : Int) (h : x ≤ y) : Duration.saturate x ≤ Duration.saturate y :=
  max_le_max le_rfl (min_le_min le_rfl h)

theorem saturate_saturate (x : Int) :
    Duration.saturate (Duration.saturate x) = Duration.saturate x := by
  unfold Duration.saturate
  omega

theorem Seconds_saturate (x : Int) :
    Duration.Seconds (Duration.saturate x) = Duration.Seconds x := by
  rw [Seconds_eq, Seconds_eq, saturate_saturate]

/-- The seconds of a duration never decrease when the duration grows. -/
theorem Seconds_mono (d1 d2 : Int) (h : d1 ≤ d2) :
    Duration.Seconds d1 ≤ Duration.Seconds d2 := by
  rw [Seconds_eq, Seconds_eq]
  have hs := saturate_mono d1 d2 h
  generalize Duration.saturate d1 = x at hs
  generalize Duration.saturate d2 = y at hs
  have hmono := fun a b hab => round53_mono _ _ 1 (by norm_num) (secondsArg_mono a b hab)
  by_cases hx : x < 0
  · by_cases hy : y < 0
    · rw [if_pos hx, if_pos hy]
      have := hmono y.natAbs x.natAbs (by omega)
      omega
    · rw [if_pos hx, if_neg hy]
      omega
  · have hy : ¬ y < 0 := by omega
    rw [if_neg hx, if_neg hy]
    have := hmono x.natAbs y.natAbs (by omega)
    omega

theorem quotient_gap (n : Nat) (hn : n + 1 < 10 ^ 9) :
    round53 (n * 2 ^ 82) (10 ^ 9) + 2 ^ 52 < round53 ((n + 1) * 2 ^ 82) (10 ^ 9) := by
  have h1 := (round53_err (n * 2 ^ 82) (10 ^ 9) (by norm_num)).1
  have h2 := (round53_err ((n + 1) * 2 ^ 82) (10 ^ 9) (by norm_num)).2
  have b1 : bitLen (n * 2 ^ 82 / 10 ^ 9) (n * 2 ^ 82 / 10 ^ 9) ≤ 82 := by
    apply bitLen_le
    apply (Nat.div_lt_iff_lt_mul (by norm_num)).2
    nlinarith
  have b2 : bitLen ((n + 1) * 2 ^ 82 / 10 ^ 9) ((n + 1) * 2 ^ 82 / 10 ^ 9) ≤ 82 := by
    apply bitLen_le
    apply (Nat.div_lt_iff_lt_mul (by norm_num)).2
    nlinarith
  have p1 : 2 ^ (bitLen (n * 2 ^ 82 / 10 ^ 9) (n * 2 ^ 82 / 10 ^ 9) - 53) ≤ 2 ^ 29 :=
    Nat.pow_le_pow_right (by norm_num) (by omega)
  have p2 : 2 ^ (bitLen ((n + 1) * 2 ^ 82 / 10 ^ 9) ((n + 1) * 2 ^ 82 / 10 ^ 9) - 53) ≤ 2 ^ 29 :=
    Nat.pow_le_pow_right (by norm_num) (by omega)
  generalize 2 ^ (bitLen (n * 2 ^ 82 / 10 ^ 9) (n * 2 ^ 82 / 10 ^ 9) - 53) = e1 at h1 p1
  generalize 2 ^ (bitLen ((n + 1) * 2 ^ 82 / 10 ^ 9) ((n + 1) * 2 ^ 82 / 10 ^ 9) - 53) = e2
    at h2 p2
  generalize round53 (n * 2 ^ 82) (10 ^ 9) = q1 at h1 ⊢
  generalize round53 ((n + 1) * 2 ^ 82) (10 ^ 9) = q2 at h2 ⊢
  norm_num at h1 h2 p1 p2 ⊢
  omega

set_option maxRecDepth 100000 in
theorem quotient_last : round53 ((10 ^ 9 - 1) * 2 ^ 82) (10 ^ 9) + 2 ^ 52 < 2 ^ 82 := by
  decide

theorem secondsArg_gap_succ (t : Nat) : secondsArg t + 2 ^ 52 < secondsArg (t + 1) := by
  unfold secondsArg
  have hcases : ((t + 1) / 10 ^ 9 = t / 10 ^ 9 ∧ (t + 1) % 10 ^ 9 = t % 10 ^ 9 + 1
      ∧ t % 10 ^ 9 + 1 < 10 ^ 9)
      ∨ ((t + 1) / 10 ^ 9 = t / 10 ^ 9 + 1 ∧ (t + 1) % 10 ^ 9 = 0
        ∧ t % 10 ^ 9 = 10 ^ 9 - 1) := by
    omega
  rcases hcases with ⟨hq, hr, hlt⟩ | ⟨hq, hr, hl⟩
  · rw [hq, hr]
    have := quotient_gap (t % 10 ^ 9) hlt
    omega
  · rw [hq, hr, hl, Nat.zero_mul, round53_zero]
    have := quotient_last
    have hmul : (t / 10 ^ 9 + 1) * 2 ^ 82 = t / 10 ^ 9 * 2 ^ 82 + 2 ^ 82 := by ring
    omega

theorem secondsArg_gap (t e : Nat) (h : t < e) : secondsArg t + 2 ^ 52 < secondsArg e :=
  lt_of_lt_of_le (secondsArg_gap_succ t) (secondsArg_mono (t + 1) e h)

theorem secondsNat_strict (t e : Nat) (h : t < e) (he : e < 2 ^ 22 * 10 ^ 9) :
    round53 (secondsArg t) 1 < round53 (secondsArg e) 1 := by
  have hgap := secondsArg_gap t e h
  have hy : secondsArg e < 2 ^ 105 := by
    unfold secondsArg
    have hb : round53 (e % 10 ^ 9 * 2 ^ 82) (10 ^ 9) ≤ 2 ^ 82 := by
      rw [← round53_one_second]
      apply round53_mono _ _ _ (by norm_num)
      have := Nat.mod_lt e (show 0 < 10 ^ 9 by norm_num)
      exact Nat.mul_le_mul_right _ (le_of_lt this)
    have hq : e / 10 ^ 9 < 2 ^ 22 := (Nat.div_lt_iff_lt_mul (by norm_num)).2 he
    omega
  have hx : secondsArg t < 2 ^ 105 := by omega
  have h1 := (round53_err (secondsArg t) 1 (by norm_num)).1
  have h2 := (round53_err (secondsArg e) 1 (by norm_num)).2
  rw [Nat.div_one] at h1 h2
  have p1 : 2 ^ (bitLen (secondsArg t) (secondsArg t) - 53) ≤ 2 ^ 52 :=
    Nat.pow_le_pow_right (by norm_num) (by have := bitLen_le _ _ hx; omega)
  have p2 : 2 ^ (bitLen (secondsArg e) (secondsArg e) - 53) ≤ 2 ^ 52 :=
    Nat.pow_le_pow_right (by norm_num) (by have := bitLen_le _ _ hy; omega)
  generalize 2 ^ (bitLen (secondsArg t) (secondsArg t) - 53) = e1 at h1 p1
  generalize 2 ^ (bitLen (secondsArg e) (secondsArg e) - 53) = e2 at h2 p2
  omega

/-- Below `2^22` seconds the `float64` seconds tell any two durations apart. -/
theorem Seconds_lt_of_lt (t e : Int) (h0 : 0 ≤ t) (h : t < e) (he : e < 2 ^ 22 * 10 ^ 9) :
    Duration.Seconds t < Duration.Seconds e := by
  have st : Duration.saturate t = t := by
    unfold Duration.saturate
    omega
  have se : Duration.saturate e = e := by
    unfold Duration.saturate
    omega
  rw [Seconds_eq, Seconds_eq, st, se, if_neg (by omega), if_neg (by omega)]
  have := secondsNat_strict t.natAbs e.natAbs (by omega) (by omega)
  omega

/-! ## Labels: `fmtX` is injective -/

theorem digitVal_udigit (d : Nat) (hd : d < 16) : digitVal (udigit d) = some d := by
  interval_cases d <;> rfl

theorem foldl_fmtXLoop (fuel : Nat) : ∀ (u : Nat) (buf : List Char), u ≤ fuel →
    (fmtXLoop fuel u buf).foldl (fun n c => n * 16 + (digitVal c).getD 0) 0
      = buf.foldl (fun n c => n * 16 + (digitVal c).getD 0) u := by
  induction fuel with
  | zero =>
    intro u buf hu
    obtain rfl : u = 0 := by omega
    simp [fmtXLoop, digitVal_udigit]
  | succ fuel ih =>
    intro u buf hu
    unfold fmtXLoop
    split
    · rename_i h16
      rw [ih (u / 16) _ (by omega)]
      simp only [List.foldl_cons, digitVal_udigit (u % 16) (Nat.mod_lt _ (by norm_num)),
        Option.getD_some]
      congr 1
      omega
    · rename_i h16
      simp only [List.foldl_cons, digitVal_udigit u (by omega), Option.getD_some]
      congr 1
      omega

theorem hexValue_fmtX (v : Nat) : hexValue (fmtX v).toList = v := by
  simp [hexValue, fmtX, foldl_fmtXLoop v v [] le_rfl]

theorem fmtX_injective : Function.Injective fmtX := by
  intro a b h
  have ha := hexValue_fmtX a
  rw [h, hexValue_fmtX b] at ha
  exact ha.symm

theorem label_eq_iff (a b c d : Nat) : (fmtX a, fmtX b) = (fmtX c, fmtX d) ↔ a = c ∧ b = d := by
  constructor
  · intro h
    exact ⟨fmtX_injective (congrArg Prod.fst h), fmtX_injective (congrArg Prod.snd h)⟩
  · rintro ⟨rfl, rfl⟩
    rfl

/-! ## The decoder -/

theorem putLittleEndian_littleEndian (bs : List Byte) :
    putLittleEndian bs.length (littleEndian bs) = bs := by
  induction bs with
  | nil => rfl
  | cons b bs ih =>
    have h1 : (b.val + 256 * littleEndian bs) % 256 = b.val := by
      have := b.isLt
      omega
    have h2 : (b.val + 256 * littleEndian bs) / 256 = littleEndian bs := by
      have := b.isLt
      omega
    simp only [List.length_cons, littleEndian, putLittleEndian, h2, ih]
    congr 1
    exact Fin.ext h1

theorem binaryRead_full (buf : List Byte) (n data : Nat) (h : n ≤ buf.length) :
    binaryRead buf n data = (littleEndian (buf.take n), buf.drop n, none) := by
  simp [binaryRead, ReadFull, h]

theorem binaryRead_short (buf : List Byte) (n data : Nat) (h : buf.length < n) :
    binaryRead buf n data
      = (data, [],
          some (if buf.length = 0 then ReadError.EOF else ReadError.ErrUnexpectedEOF)) := by
  have h1 : ¬ n ≤ buf.length := by omega
  have h2 : n ≠ 0 := by omega
  by_cases h0 : buf.length = 0 <;> simp [binaryRead, ReadFull, h1, h0, h2]

theorem unpack_eq (payload : List Byte) :
    unpack payload =
      (if 8 ≤ payload.length then littleEndian (payload.take 8) else 0,
        { unix_time := if 16 ≤ payload.length then littleEndian ((payload.drop 8).take 8) else 0
          temperature :=
            if 20 ≤ payload.length then littleEndian ((payload.drop 16).take 4) else 0
          gap := 0 }) := by
  simp only [unpack]
  by_cases h8 : 8 ≤ payload.length
  · rw [binaryRead_full payload 8 0 h8]
    by_cases h16 : 16 ≤ payload.length
    · rw [binaryRead_full (payload.drop 8) 8 0 (by simp; omega)]
      by_cases h20 : 20 ≤ payload.length
      · rw [binaryRead_full ((payload.drop 8).drop 8) 4 0 (by simp; omega)]
        simp [h8, h16, h20]
      · rw [binaryRead_short ((payload.drop 8).drop 8) 4 0 (by simp; omega)]
        simp [h8, h16, h20]
    · rw [binaryRead_short (payload.drop 8) 8 0 (by simp; omega)]
      rw [binaryRead_short [] 4 0 (by simp)]
      have h20 : ¬ 20 ≤ payload.length := by omega
      simp [h8, h16, h20]
  · rw [binaryRead_short payload 8 0 (by omega), binaryRead_short [] 8 0 (by simp),
      binaryRead_short [] 4 0 (by simp)]
    have h16 : ¬ 16 ≤ payload.length := by omega
    have h20 : ¬ 20 ≤ payload.length := by omega
    simp [h8, h16, h20]

/-! ## The update `DS18b20ReadTemperature` -/

theorem DS18b20ReadTemperature_nodes (mac : Nat) (payload : List Byte) (now : Int) (st : State) :
    (DS18b20ReadTemperature mac payload now st).nodes.lookup mac
      = some
        { sensor :=
            (match st.nodes.lookup mac with
              | some node => node.sensor
              | none => ∅).insert (unpack payload).1 (unpack payload).2
          LastRescan := now } := by
  simp only [DS18b20ReadTemperature, ESP8266_obj.UpdateSensor, AList.lookup_insert]
  cases st.nodes.lookup mac <;> rfl

theorem DS18b20ReadTemperature_nodes_ne (mac : Nat) (payload : List Byte) (now : Int)
    (st : State) (mac1 : Nat) (h : mac1 ≠ mac) :
    (DS18b20ReadTemperature mac payload now st).nodes.lookup mac1 = st.nodes.lookup mac1 := by
  simp only [DS18b20ReadTemperature, AList.lookup_insert_ne h]

theorem DS18b20ReadTemperature_series (mac : Nat) (payload : List Byte) (now : Int)
    (st : State) :
    (DS18b20ReadTemperature mac payload now st).messagesPublished.lookup
        (fmtX mac, fmtX (unpack payload).1)
      = some (float64 (unpack payload).2.temperature) := by
  simp only [DS18b20ReadTemperature, AList.lookup_insert]

theorem DS18b20ReadTemperature_series_ne (mac : Nat) (payload : List Byte) (now : Int)
    (st : State) (mac1 a1 : Nat) (h : ¬ (mac1 = mac ∧ a1 = (unpack payload).1)) :
    (DS18b20ReadTemperature mac payload now st).messagesPublished.lookup (fmtX mac1, fmtX a1)
      = st.messagesPublished.lookup (fmtX mac1, fmtX a1) := by
  have hne : (fmtX mac1, fmtX a1) ≠ (fmtX mac, fmtX (unpack payload).1) := by
    intro heq
    exact h ((label_eq_iff _ _ _ _).1 heq)
  simp only [DS18b20ReadTemperature, AList.lookup_insert_ne hne]

/-- C9: for a payload of exactly 20 bytes the decode step yields the sensor address, the
timestamp and the bit pattern of the temperature as the little-endian values of bytes 0..7,
8..15 and 16..19, and writing the three decoded fields back in that layout gives the
original 20 bytes. -/
theorem unpack_encode_roundtrip (payload : List Byte) (h : payload.length = 20) :
    unpack payload
        = (littleEndian (payload.take 8),
            { unix_time := littleEndian ((payload.drop 8).take 8)
              temperature := littleEndian ((payload.drop 16).take 4)
              gap := 0 })
      ∧ encode (unpack payload).1 (unpack payload).2 = payload := by
  have hu := unpack_eq payload
  simp only [h, show (8 : Nat) ≤ 20 by decide, show (16 : Nat) ≤ 20 by decide, le_refl,
    if_true] at hu
  refine ⟨hu, ?_⟩
  rw [hu]
  have l1 : (payload.take 8).length = 8 := by simp [h]
  have l2 : ((payload.drop 8).take 8).length = 8 := by simp [h]
  have l3 : ((payload.drop 16).take 4).length = 4 := by simp [h]
  have e1 := putLittleEndian_littleEndian (payload.take 8)
  have e2 := putLittleEndian_littleEndian ((payload.drop 8).take 8)
  have e3 := putLittleEndian_littleEndian ((payload.drop 16).take 4)
  rw [l1] at e1
  rw [l2] at e2
  rw [l3] at e3
  simp only [encode, e1, e2, e3]
  have h4 : (payload.drop 16).take 4 = payload.drop 16 :=
    List.take_of_length_le (by simp [h])
  have h5 : (payload.drop 8).take 8 ++ payload.drop 16 = payload.drop 8 := by
    have := List.take_append_drop 8 (payload.drop 8)
    simpa [List.drop_drop] using this
  rw [h4, List.append_assoc, h5, List.take_append_drop]

/-- Witness of C9 on the scenario payload: address 1, timestamp 1000, temperature bits
`0x41AC0000` (that is 21.5). -/
theorem unpack_encode_roundtrip_scenario :
    scenarioPayload.length = 20
      ∧ (unpack scenarioPayload
            = (littleEndian (scenarioPayload.take 8),
                { unix_time := littleEndian ((scenarioPayload.drop 8).take 8)
                  temperature := littleEndian ((scenarioPayload.drop 16).take 4)
                  gap := 0 })
          ∧ encode (unpack scenarioPayload).1 (unpack scenarioPayload).2 = scenarioPayload)
      ∧ unpack scenarioPayload = (1, { unix_time := 1000, temperature := 0x41AC0000, gap := 0 })
      ∧ float32Value 0x41AC0000 = FloatValue.finite false (43 / 2) :=
  ⟨by decide, unpack_encode_roundtrip scenarioPayload (by decide), by decide,
    by norm_num [float32Value]⟩

/-- C4: for a payload of at least 20 bytes that decodes to sensor address `s` and reading
`r` (the little-endian values of bytes 0..7, 8..15 and 16..19), after
`DS18b20ReadTemperature(n, payload)` the registry holds node `n` (created if absent, its
other sensors kept) with sensor `s` mapped to `r` and `LastRescan` equal to the current
time, and the gauge for the labels `(fmtX n, fmtX s)` holds `float64(r.temperature)`, which
denotes exactly the value of `r.temperature`. -/
theorem DS18b20ReadTemperature_stores (st : State) (n : Nat) (payload : List Byte) (now : Int)
    (s : Nat) (r : Ds28b20Temperautre) (hlen : 20 ≤ payload.length)
    (hdec : unpack payload = (s, r)) :
    (s = littleEndian (payload.take 8)
        ∧ r = { unix_time := littleEndian ((payload.drop 8).take 8)
                temperature := littleEndian ((payload.drop 16).take 4)
                gap := 0 })
      ∧ (∃ node : ESP8266_obj,
          (DS18b20ReadTemperature n payload now st).nodes.lookup n = some node
            ∧ node.sensor.lookup s = some r
            ∧ node.LastRescan = now
            ∧ ∀ a : Nat, a ≠ s →
                node.sensor.lookup a = (st.nodes.lookup n).bind (fun old => old.sensor.lookup a))
      ∧ ∃ g : Float64,
          (DS18b20ReadTemperature n payload now st).messagesPublished.lookup (fmtX n, fmtX s)
              = some g
            ∧ g = float64 r.temperature
            ∧ float64Value g.bits = float32Value r.temperature := by
  have hu := unpack_eq payload
  rw [hdec] at hu
  simp only [show 8 ≤ payload.length by omega, show 16 ≤ payload.length by omega, hlen,
    if_true, Prod.mk.injEq] at hu
  refine ⟨hu, ⟨_, DS18b20ReadTemperature_nodes n payload now st, ?_, rfl, ?_⟩,
    ⟨_, ?_, rfl, float64_exact r.temperature⟩⟩
  · simp only [hdec, AList.lookup_insert]
  · intro a ha
    simp only [hdec, AList.lookup_insert_ne ha]
    cases st.nodes.lookup n <;> simp
  · have := DS18b20ReadTemperature_series n payload now st
    rw [hdec] at this
    exact this

/-- Witness of C4: the scenario payload sent by node `0x1A2B3C` to the empty registry. -/
theorem DS18b20ReadTemperature_stores_scenario :
    (20 ≤ scenarioPayload.length
        ∧ unpack scenarioPayload
            = (1, { unix_time := 1000, temperature := 0x41AC0000, gap := 0 }))
      ∧ (∃ node : ESP8266_obj,
          (DS18b20ReadTemperature 0x1A2B3C scenarioPayload 5 State.init).nodes.lookup 0x1A2B3C
              = some node
            ∧ node.sensor.lookup 1
                = some { unix_time := 1000, temperature := 0x41AC0000, gap := 0 }
            ∧ node.LastRescan = 5
            ∧ ∀ a : Nat, a ≠ 1 →
                node.sensor.lookup a
                  = (State.init.nodes.lookup 0x1A2B3C).bind (fun old => old.sensor.lookup a))
      ∧ ∃ g : Float64,
          (DS18b20ReadTemperature 0x1A2B3C scenarioPayload 5
              State.init).messagesPublished.lookup (fmtX 0x1A2B3C, fmtX 1) = some g
            ∧ g = float64 0x41AC0000
            ∧ float64Value g.bits = float32Value 0x41AC0000 :=
  ⟨⟨by decide, by decide⟩,
    (DS18b20ReadTemperature_stores State.init 0x1A2B3C scenarioPayload 5 1
      { unix_time := 1000, temperature := 0x41AC0000, gap := 0 } (by decide) (by decide)).2⟩

/-- C1, refuted as stated: the empty payload is shorter than 20 bytes, yet
`DS18b20ReadTemperature(1, payload)` on the empty registry adds node `1` with sensor `0` and
sets the series `("1", "0")`. -/
theorem short_payload_is_stored :
    ([] : List Byte).length < 20
      ∧ State.init.nodes.lookup 1 = none
      ∧ (DS18b20ReadTemperature 1 [] 7 State.init).nodes.lookup 1
          = some { sensor := AList.singleton 0 { unix_time := 0, temperature := 0, gap := 0 }
                   LastRescan := 7 }
      ∧ State.init.messagesPublished.lookup ("1", "0") = none
      ∧ (DS18b20ReadTemperature 1 [] 7 State.init).messagesPublished.lookup ("1", "0")
          = some (float64 0)
      ∧ DS18b20ReadTemperature 1 [] 7 State.init ≠ State.init := by
  refine ⟨by decide, by decide, rfl, by decide, by decide, ?_⟩
  intro h
  have h1 := congrArg (fun s : State => s.nodes.lookup 1) h
  revert h1
  decide

/-- C1, amended: for a payload shorter than 20 bytes `DS18b20ReadTemperature` has no error
outcome and performs the update with the fields it could not read left at zero: the
temperature is 0, the timestamp is 0 below 16 bytes, the address is 0 below 8 bytes; node
`mac` is in the registry afterwards with that sensor mapped to that reading and `LastRescan`
equal to the current time, and the series `(fmtX mac, fmtX address)` holds `float64(0)`. -/
theorem DS18b20ReadTemperature_short_payload (st : State) (mac : Nat) (payload : List Byte)
    (now : Int) (h : payload.length < 20) :
    (unpack payload).2.temperature = 0
      ∧ (payload.length < 16 → (unpack payload).2.unix_time = 0)
      ∧ (payload.length < 8 → (unpack payload).1 = 0)
      ∧ (∃ node : ESP8266_obj,
          (DS18b20ReadTemperature mac payload now st).nodes.lookup mac = some node
            ∧ node.sensor.lookup (unpack payload).1 = some (unpack payload).2
            ∧ node.LastRescan = now)
      ∧ (DS18b20ReadTemperature mac payload now st).messagesPublished.lookup
            (fmtX mac, fmtX (unpack payload).1)
          = some (float64 0) := by
  have hu := unpack_eq payload
  have ht : (unpack payload).2.temperature = 0 := by
    rw [hu]
    simp [show ¬ 20 ≤ payload.length by omega]
  refine ⟨ht, ?_, ?_, ⟨_, DS18b20ReadTemperature_nodes mac payload now st, ?_, rfl⟩, ?_⟩
  · intro h16
    rw [hu]
    simp [show ¬ 16 ≤ payload.length by omega]
  · intro h8
    rw [hu]
    simp [show ¬ 8 ≤ payload.length by omega]
  · simp only [AList.lookup_insert]
  · rw [← ht]
    exact DS18b20ReadTemperature_series mac payload now st

/-- Witness of the amended C1: a payload of 9 bytes keeps its address byte and is stored
with timestamp and temperature zero. -/
theorem DS18b20ReadTemperature_short_payload_nine :
    ([2, 0, 0, 0, 0, 0, 0, 0, 9] : List Byte).length < 20
      ∧ (unpack [2, 0, 0, 0, 0, 0, 0, 0, 9]).1 = 2
      ∧ (DS18b20ReadTemperature 1 [2, 0, 0, 0, 0, 0, 0, 0, 9] 7
            State.init).messagesPublished.lookup
            (fmtX 1, fmtX (unpack [2, 0, 0, 0, 0, 0, 0, 0, 9]).1)
          = some (float64 0) :=
  ⟨by decide, by decide,
    (DS18b20ReadTemperature_short_payload State.init 1 [2, 0, 0, 0, 0, 0, 0, 0, 9] 7
      (by decide)).2.2.2.2⟩

/-! ## The sweep -/

theorem foldl_removeSensor_nodes (mac : Nat) (keys : List Nat) : ∀ (st : State) (mac1 : Nat),
    (keys.foldl (removeSensor mac) st).nodes.lookup mac1
      = if keys ≠ [] ∧ mac1 = mac then none else st.nodes.lookup mac1 := by
  induction keys with
  | nil => intro st mac1; simp
  | cons a keys ih =>
    intro st mac1
    rw [List.foldl_cons, ih]
    by_cases h : mac1 = mac
    · subst h
      simp [removeSensor, AList.lookup_erase]
    · simp [removeSensor, h, AList.lookup_erase_ne h]

theorem foldl_removeSensor_series_of_mem (mac : Nat) (keys : List Nat) :
    ∀ (st : State) (a : Nat), a ∈ keys →
      (keys.foldl (removeSensor mac) st).messagesPublished.lookup (fmtX mac, fmtX a) = none := by
  induction keys using List.reverseRecOn with
  | nil => intro st a ha; simp at ha
  | append_singleton keys b ih =>
    intro st a ha
    rw [List.foldl_append, List.foldl_cons, List.foldl_nil]
    by_cases hab : a = b
    · subst hab
      simp [removeSensor, AList.lookup_erase]
    · have hmem : a ∈ keys := by
        rcases List.mem_append.1 ha with h | h
        · exact h
        · simp at h; exact absurd h hab
      have hne : (fmtX mac, fmtX a) ≠ (fmtX mac, fmtX b) := fun h =>
        hab ((label_eq_iff _ _ _ _).1 h).2
      simp only [removeSensor, AList.lookup_erase_ne hne]
      exact ih st a hmem

theorem foldl_removeSensor_series_of_label (mac : Nat) (keys : List Nat) :
    ∀ (st : State) (k : String × String), k.1 ≠ fmtX mac →
      (keys.foldl (removeSensor mac) st).messagesPublished.lookup k
        = st.messagesPublished.lookup k := by
  induction keys with
  | nil => intro st k _; rfl
  | cons a keys ih =>
    intro st k hk
    rw [List.foldl_cons, ih _ k hk]
    have hne : k ≠ (fmtX mac, fmtX a) := fun h => hk (by rw [h])
    simp only [removeSensor, AList.lookup_erase_ne hne]

theorem foldl_removeSensor_series_none (mac : Nat) (keys : List Nat) :
    ∀ (st : State) (k : String × String), st.messagesPublished.lookup k = none →
      (keys.foldl (removeSensor mac) st).messagesPublished.lookup k = none := by
  induction keys with
  | nil => intro st k h; exact h
  | cons a keys ih =>
    intro st k h
    rw [List.foldl_cons]
    apply ih
    by_cases hk : k = (fmtX mac, fmtX a)
    · subst hk
      simp [removeSensor, AList.lookup_erase]
    · simp only [removeSensor, AList.lookup_erase_ne hk]
      exact h

theorem RemoveSensorFromNode_eq (mac : Nat) (node : ESP8266_obj) (now timeout : Int)
    (st : State) :
    RemoveSensorFromNode mac node now timeout st
      = if Duration.Seconds (Time.Sub now node.LastRescan) > Duration.Seconds timeout then
          node.sensor.keys.foldl (removeSensor mac) st
        else st := rfl

theorem RemoveSensorFromNode_fresh (mac : Nat) (node : ESP8266_obj) (now timeout : Int)
    (st : State) (h : now - node.LastRescan ≤ timeout) :
    RemoveSensorFromNode mac node now timeout st = st := by
  rw [RemoveSensorFromNode_eq, if_neg]
  have hmono := Seconds_mono _ _ h
  rw [← Seconds_saturate] at hmono
  exact not_lt.2 hmono

theorem RemoveSensorFromNode_nodes_ne (mac : Nat) (node : ESP8266_obj) (now timeout : Int)
    (st : State) (mac1 : Nat) (h : mac1 ≠ mac) :
    (RemoveSensorFromNode mac node now timeout st).nodes.lookup mac1 = st.nodes.lookup mac1 := by
  rw [RemoveSensorFromNode_eq]
  split
  · rw [foldl_removeSensor_nodes]
    simp [h]
  · rfl

theorem RemoveSensorFromNode_series_ne (mac : Nat) (node : ESP8266_obj) (now timeout : Int)
    (st : State) (k : String × String) (h : k.1 ≠ fmtX mac) :
    (RemoveSensorFromNode mac node now timeout st).messagesPublished.lookup k
      = st.messagesPublished.lookup k := by
  rw [RemoveSensorFromNode_eq]
  split
  · exact foldl_removeSensor_series_of_label mac _ st k h
  · rfl

theorem RemoveSensorFromNode_nodes_none (mac : Nat) (node : ESP8266_obj) (now timeout : Int)
    (st : State) (mac1 : Nat) (h : st.nodes.lookup mac1 = none) :
    (RemoveSensorFromNode mac node now timeout st).nodes.lookup mac1 = none := by
  rw [RemoveSensorFromNode_eq]
  split
  · rw [foldl_removeSensor_nodes]
    split
    · rfl
    · exact h
  · exact h

theorem RemoveSensorFromNode_series_none (mac : Nat) (node : ESP8266_obj) (now timeout : Int)
    (st : State) (k : String × String) (h : st.messagesPublished.lookup k = none) :
    (RemoveSensorFromNode mac node now timeout st).messagesPublished.lookup k = none := by
  rw [RemoveSensorFromNode_eq]
  split
  · exact foldl_removeSensor_series_none mac _ st k h
  · exact h

theorem RemoveSensorFromNode_expired (mac : Nat) (node : ESP8266_obj) (now timeout : Int)
    (st : State) (hne : node.sensor.keys ≠ [])
    (h : Duration.Seconds (Time.Sub now node.LastRescan) > Duration.Seconds timeout) :
    (RemoveSensorFromNode mac node now timeout st).nodes.lookup mac = none
      ∧ ∀ a ∈ node.sensor.keys,
          (RemoveSensorFromNode mac node now timeout st).messagesPublished.lookup
            (fmtX mac, fmtX a) = none := by
  rw [RemoveSensorFromNode_eq, if_pos h]
  refine ⟨?_, fun a ha => foldl_removeSensor_series_of_mem mac _ st a ha⟩
  rw [foldl_removeSensor_nodes]
  simp [hne]

theorem sweep_nodes_none (order : List (Sigma fun _ : Nat => ESP8266_obj)) (now : Nat → Int)
    (timeout : Int) : ∀ (st : State) (mac1 : Nat), st.nodes.lookup mac1 = none →
      (sweep order now timeout st).nodes.lookup mac1 = none := by
  induction order with
  | nil => intro st mac1 h; exact h
  | cons e order ih =>
    intro st mac1 h
    simp only [sweep, List.foldl_cons]
    exact ih _ mac1 (RemoveSensorFromNode_nodes_none _ _ _ _ _ _ h)

theorem sweep_series_none (order : List (Sigma fun _ : Nat => ESP8266_obj)) (now : Nat → Int)
    (timeout : Int) : ∀ (st : State) (k : String × String),
      st.messagesPublished.lookup k = none →
        (sweep order now timeout st).messagesPublished.lookup k = none := by
  induction order with
  | nil => intro st k h; exact h
  | cons e order ih =>
    intro st k h
    simp only [sweep, List.foldl_cons]
    exact ih _ k (RemoveSensorFromNode_series_none _ _ _ _ _ _ h)

theorem sweep_frame (order : List (Sigma fun _ : Nat => ESP8266_obj)) (now : Nat → Int)
    (timeout : Int) (n : Nat) : ∀ (st : State),
      (∀ e ∈ order, e.1 = n → now n - e.2.LastRescan ≤ timeout) →
        (sweep order now timeout st).nodes.lookup n = st.nodes.lookup n
          ∧ ∀ k : String × String, k.1 = fmtX n →
              (sweep order now timeout st).messagesPublished.lookup k
                = st.messagesPublished.lookup k := by
  induction order with
  | nil => intro st _; exact ⟨rfl, fun _ _ => rfl⟩
  | cons e order ih =>
    intro st h
    have hrest := ih (RemoveSensorFromNode e.1 e.2 (now e.1) timeout st)
      (fun e1 he1 => h e1 (List.mem_cons_of_mem _ he1))
    simp only [sweep, List.foldl_cons]
    simp only [sweep] at hrest
    by_cases hen : e.1 = n
    · have hfresh := h e (List.mem_cons_self _ _) hen
      rw [← hen] at hfresh
      rw [RemoveSensorFromNode_fresh _ _ _ _ _ hfresh] at hrest ⊢
      exact hrest
    · refine ⟨?_, ?_⟩
      · rw [hrest.1]
        exact RemoveSensorFromNode_nodes_ne _ _ _ _ _ _ (Ne.symm hen)
      · intro k hk
        rw [hrest.2 k hk]
        apply RemoveSensorFromNode_series_ne
        rw [hk]
        exact fun heq => hen (fmtX_injective heq).symm

theorem sweep_expired (order : List (Sigma fun _ : Nat => ESP8266_obj)) (now : Nat → Int)
    (timeout : Int) (n : Nat) (node : ESP8266_obj) (hne : node.sensor.keys ≠ [])
    (hexp : Duration.Seconds (Time.Sub (now n) node.LastRescan) > Duration.Seconds timeout) :
    ∀ (st : State),
      (⟨n, node⟩ : Sigma fun _ : Nat => ESP8266_obj) ∈ order →
        (sweep order now timeout st).nodes.lookup n = none
          ∧ ∀ a ∈ node.sensor.keys,
              (sweep order now timeout st).messagesPublished.lookup (fmtX n, fmtX a) = none := by
  induction order with
  | nil => intro st h; simp at h
  | cons e order ih =>
    intro st h
    rcases List.mem_cons.1 h with h | h
    · subst h
      have hcall := RemoveSensorFromNode_expired n node (now n) timeout st hne hexp
      simp only [sweep, List.foldl_cons]
      exact ⟨sweep_nodes_none order now timeout _ n hcall.1,
        fun a ha => sweep_series_none order now timeout _ _ (hcall.2 a ha)⟩
    · simp only [sweep, List.foldl_cons]
      exact ih _ h

/-! ## Invariants of the reachable states -/

theorem RemoveSensorFromNode_nodes_some (mac : Nat) (node : ESP8266_obj) (now timeout : Int)
    (st : State) (mac1 : Nat) (node1 : ESP8266_obj)
    (h : (RemoveSensorFromNode mac node now timeout st).nodes.lookup mac1 = some node1) :
    st.nodes.lookup mac1 = some node1 := by
  cases hl : st.nodes.lookup mac1 with
  | none => rw [RemoveSensorFromNode_nodes_none _ _ _ _ _ _ hl] at h; cases h
  | some nd =>
    rw [RemoveSensorFromNode_eq] at h
    split at h
    · rw [foldl_removeSensor_nodes] at h
      split at h
      · cases h
      · rw [hl] at h; exact h
    · rw [hl] at h; exact h

theorem RemoveSensorFromNode_populated (mac : Nat) (node : ESP8266_obj) (now timeout : Int)
    (st : State) (h : Populated st) :
    Populated (RemoveSensorFromNode mac node now timeout st) :=
  fun mac1 node1 h1 => h mac1 node1 (RemoveSensorFromNode_nodes_some _ _ _ _ _ _ _ h1)

theorem RemoveSensorFromNode_exported (mac : Nat) (node : ESP8266_obj) (now timeout : Int)
    (st : State) (h : Exported st) :
    Exported (RemoveSensorFromNode mac node now timeout st) := by
  intro mac1 node1 a r h1 h2
  have h0 := RemoveSensorFromNode_nodes_some _ _ _ _ _ _ _ h1
  by_cases hm : mac1 = mac
  · subst hm
    rw [RemoveSensorFromNode_eq] at h1 ⊢
    split
    · rename_i hexp
      rw [if_pos hexp, foldl_removeSensor_nodes] at h1
      by_cases hk : node.sensor.keys = []
      · rw [hk]
        exact h mac1 node1 a r h0 h2
      · simp [hk] at h1
    · exact h mac1 node1 a r h0 h2
  · rw [RemoveSensorFromNode_series_ne _ _ _ _ _ _
      (show (fmtX mac1, fmtX a).1 ≠ fmtX mac from fun heq => hm (fmtX_injective heq))]
    exact h mac1 node1 a r h0 h2

theorem sweep_populated (order : List (Sigma fun _ : Nat => ESP8266_obj)) (now : Nat → Int)
    (timeout : Int) : ∀ st : State, Populated st → Populated (sweep order now timeout st) := by
  induction order with
  | nil => intro st h; exact h
  | cons e order ih =>
    intro st h
    simp only [sweep, List.foldl_cons]
    exact ih _ (RemoveSensorFromNode_populated _ _ _ _ _ h)

theorem sweep_exported (order : List (Sigma fun _ : Nat => ESP8266_obj)) (now : Nat → Int)
    (timeout : Int) : ∀ st : State, Exported st → Exported (sweep order now timeout st) := by
  induction order with
  | nil => intro st h; exact h
  | cons e order ih =>
    intro st h
    simp only [sweep, List.foldl_cons]
    exact ih _ (RemoveSensorFromNode_exported _ _ _ _ _ h)

theorem DS18b20ReadTemperature_populated (mac : Nat) (payload : List Byte) (now : Int)
    (st : State) (h : Populated st) : Populated (DS18b20ReadTemperature mac payload now st) := by
  intro mac1 node1 h1
  by_cases hm : mac1 = mac
  · subst hm
    rw [DS18b20ReadTemperature_nodes] at h1
    cases h1
    simp [AList.keys_insert]
  · rw [DS18b20ReadTemperature_nodes_ne _ _ _ _ _ hm] at h1
    exact h mac1 node1 h1

theorem DS18b20ReadTemperature_exported (mac : Nat) (payload : List Byte) (now : Int)
    (st : State) (h : Exported st) : Exported (DS18b20ReadTemperature mac payload now st) := by
  intro mac1 node1 a r h1 h2
  by_cases hm : mac1 = mac
  · subst hm
    rw [DS18b20ReadTemperature_nodes] at h1
    cases h1
    by_cases ha : a = (unpack payload).1
    · subst ha
      simp only [AList.lookup_insert, Option.some.injEq] at h2
      rw [← h2]
      exact DS18b20ReadTemperature_series mac1 payload now st
    · simp only [AList.lookup_insert_ne ha] at h2
      rw [DS18b20ReadTemperature_series_ne _ _ _ _ _ _ (fun hh => ha hh.2)]
      cases hl : st.nodes.lookup mac1 with
      | none => rw [hl] at h2; simp at h2
      | some old =>
        rw [hl] at h2
        exact h mac1 old a r hl h2
  · rw [DS18b20ReadTemperature_nodes_ne _ _ _ _ _ hm] at h1
    rw [DS18b20ReadTemperature_series_ne _ _ _ _ _ _ (fun hh => hm hh.1)]
    exact h mac1 node1 a r h1 h2

theorem sweep_nodes_some (order : List (Sigma fun _ : Nat => ESP8266_obj)) (now : Nat → Int)
    (timeout : Int) : ∀ (st : State) (mac1 : Nat) (node1 : ESP8266_obj),
      (sweep order now timeout st).nodes.lookup mac1 = some node1 →
        st.nodes.lookup mac1 = some node1 := by
  induction order with
  | nil => intro st mac1 node1 h; exact h
  | cons e order ih =>
    intro st mac1 node1 h
    simp only [sweep, List.foldl_cons] at h
    exact RemoveSensorFromNode_nodes_some _ _ _ _ _ _ _ (ih _ mac1 node1 h)

theorem Run.populated {timeout : Int} {ops : List Op} {st : State} (h : Run timeout ops st) :
    Populated st := by
  induction h with
  | init => intro mac node h; simp [State.init] at h
  | update mac payload now _ ih => exact DS18b20ReadTemperature_populated _ _ _ _ ih
  | sweep order now _ _ ih => exact sweep_populated _ _ _ _ ih

theorem Run.exported {timeout : Int} {ops : List Op} {st : State} (h : Run timeout ops st) :
    Exported st := by
  induction h with
  | init => intro mac node a r h; simp [State.init] at h
  | update mac payload now _ ih => exact DS18b20ReadTemperature_exported _ _ _ _ ih
  | sweep order now _ _ ih => exact sweep_exported _ _ _ _ ih

theorem Run.lastStored_eq {timeout : Int} {ops : List Op} {st : State}
    (h : Run timeout ops st) :
    ∀ (mac : Nat) (node : ESP8266_obj) (a : Nat) (r : Ds28b20Temperautre),
      st.nodes.lookup mac = some node → node.sensor.lookup a = some r →
        lastStored ops mac a = some r := by
  induction h with
  | init => intro mac node a r h; simp [State.init] at h
  | @update ops st m payload now _ ih =>
    intro mac node a r h1 h2
    by_cases hm : mac = m
    · subst hm
      rw [DS18b20ReadTemperature_nodes] at h1
      cases h1
      by_cases ha : a = (unpack payload).1
      · subst ha
        simp only [AList.lookup_insert, Option.some.injEq] at h2
        rw [lastStored, if_pos ⟨rfl, rfl⟩, h2]
      · simp only [AList.lookup_insert_ne ha] at h2
        have hne : ¬ (mac = mac ∧ (unpack payload).1 = a) := fun hh => ha hh.2.symm
        rw [lastStored, if_neg hne]
        cases hl : st.nodes.lookup mac with
        | none => rw [hl] at h2; simp at h2
        | some old =>
          rw [hl] at h2
          exact ih mac old a r hl h2
    · rw [DS18b20ReadTemperature_nodes_ne _ _ _ _ _ hm] at h1
      have hne : ¬ (m = mac ∧ (unpack payload).1 = a) := fun hh => hm hh.1.symm
      rw [lastStored, if_neg hne]
      exact ih mac node a r h1 h2
  | sweep order now _ _ ih =>
    intro mac node a r h1 h2
    rw [lastStored]
    exact ih mac node a r (sweep_nodes_some _ _ _ _ _ _ h1) h2

/-! ## Eviction -/

theorem mem_keys_of_lookup {β : Type} (m : AList (fun _ : Nat => β)) (a : Nat) (r : β)
    (h : m.lookup a = some r) : a ∈ m.keys := by
  apply AList.mem_keys.1
  apply AList.lookup_isSome.1
  rw [h]
  rfl

/-- C2, amended: in a state reached from the empty registry by updates and sweeps, for a
node `n` of the registry for which the test of line 55 holds, that is
`(now - LastRescan(n)).Seconds() > timeout.Seconds()` compared as `float64` values (as it
does whenever `0 <= timeout < now - LastRescan(n) < 2^22` seconds), the call
`RemoveSensorFromNode(n, node)` removes `n` from the nodes map and deletes the series of
every sensor `n` held (each of which was exported before); the same holds after a whole
sweep whose call for `n` reads the clock value `now`. -/
theorem RemoveSensorFromNode_evicts (timeout : Int) (st : State) (hst : Reachable timeout st)
    (n : Nat) (node : ESP8266_obj) (now : Int) (hn : st.nodes.lookup n = some node)
    (hexp : Duration.Seconds (Time.Sub now node.LastRescan) > Duration.Seconds timeout
      ∨ (0 ≤ timeout ∧ timeout < now - node.LastRescan
          ∧ now - node.LastRescan < 2 ^ 22 * 10 ^ 9)) :
    ((RemoveSensorFromNode n node now timeout st).nodes.lookup n = none
        ∧ ∀ (a : Nat) (r : Ds28b20Temperautre), node.sensor.lookup a = some r →
            st.messagesPublished.lookup (fmtX n, fmtX a) = some (float64 r.temperature)
              ∧ (RemoveSensorFromNode n node now timeout st).messagesPublished.lookup
                  (fmtX n, fmtX a) = none)
      ∧ ∀ (order : List (Sigma fun _ : Nat => ESP8266_obj)) (clock : Nat → Int),
          order.Perm st.nodes.entries → clock n = now →
            (sweep order clock timeout st).nodes.lookup n = none
              ∧ ∀ (a : Nat) (r : Ds28b20Temperautre), node.sensor.lookup a = some r →
                  (sweep order clock timeout st).messagesPublished.lookup (fmtX n, fmtX a)
                    = none := by
  have htest : Duration.Seconds (Time.Sub now node.LastRescan) > Duration.Seconds timeout := by
    rcases hexp with h | ⟨h0, h1, h2⟩
    · exact h
    · unfold Time.Sub
      rw [Seconds_saturate]
      exact Seconds_lt_of_lt _ _ h0 h1 h2
  obtain ⟨ops, hrun⟩ := hst
  have hpop : node.sensor.keys ≠ [] := hrun.populated n node hn
  have hcall := RemoveSensorFromNode_expired n node now timeout st hpop htest
  refine ⟨⟨hcall.1, fun a r har =>
    ⟨hrun.exported n node a r hn har, hcall.2 a (mem_keys_of_lookup _ a r har)⟩⟩, ?_⟩
  intro order clock hperm hclock
  have hmem : (⟨n, node⟩ : Sigma fun _ : Nat => ESP8266_obj) ∈ order :=
    hperm.symm.subset (AList.mem_lookup_iff.1 (by rw [hn]; rfl))
  have hsweep :=
    sweep_expired order clock timeout n node hpop (by rw [hclock]; exact htest) st hmem
  exact ⟨hsweep.1, fun a r har => hsweep.2 a (mem_keys_of_lookup _ a r har)⟩

theorem twoSensors_run (timeout : Int) :
    Run timeout
      [Op.update 10 (encode 2 { unix_time := 1001, temperature := 0x41B00000, gap := 0 }) 0,
        Op.update 10 (encode 1 { unix_time := 1000, temperature := 0x41AC0000, gap := 0 }) 0]
      twoSensors :=
  Run.update _ _ _ (Run.update _ _ _ Run.init)

theorem twoSensors_reachable (timeout : Int) : Reachable timeout twoSensors :=
  ⟨_, twoSensors_run timeout⟩

set_option maxRecDepth 100000 in
/-- Witness of the amended C2, the scenario of the specification with a timeout of 60
seconds: after two updates of node `10` at time `0`, for sensors `1` and `2`, one call one
nanosecond after the timeout removes the node and both series. -/
theorem RemoveSensorFromNode_evicts_scenario :
    (twoSensors.nodes.lookup 10 = some twoSensorsNode
        ∧ (0 : Int) ≤ 60 * 10 ^ 9
        ∧ (60 * 10 ^ 9 : Int) < 60 * 10 ^ 9 + 1 - twoSensorsNode.LastRescan
        ∧ (60 * 10 ^ 9 + 1 : Int) - twoSensorsNode.LastRescan < 2 ^ 22 * 10 ^ 9)
      ∧ (RemoveSensorFromNode 10 twoSensorsNode (60 * 10 ^ 9 + 1) (60 * 10 ^ 9)
          twoSensors).nodes.lookup 10 = none
      ∧ (twoSensors.messagesPublished.lookup (fmtX 10, fmtX 1) = some (float64 0x41AC0000)
          ∧ (RemoveSensorFromNode 10 twoSensorsNode (60 * 10 ^ 9 + 1) (60 * 10 ^ 9)
              twoSensors).messagesPublished.lookup (fmtX 10, fmtX 1) = none)
      ∧ (twoSensors.messagesPublished.lookup (fmtX 10, fmtX 2) = some (float64 0x41B00000)
          ∧ (RemoveSensorFromNode 10 twoSensorsNode (60 * 10 ^ 9 + 1) (60 * 10 ^ 9)
              twoSensors).messagesPublished.lookup (fmtX 10, fmtX 2) = none) :=
  have h := (RemoveSensorFromNode_evicts (60 * 10 ^ 9) twoSensors
    (twoSensors_reachable (60 * 10 ^ 9)) 10 twoSensorsNode (60 * 10 ^ 9 + 1) rfl
    (Or.inr ⟨by decide, by decide, by decide⟩)).1
  ⟨⟨rfl, by decide, by decide, by decide⟩, h.1,
    h.2 1 { unix_time := 1000, temperature := 0x41AC0000, gap := 0 } rfl,
    h.2 2 { unix_time := 1001, temperature := 0x41B00000, gap := 0 } rfl⟩

set_option maxRecDepth 100000 in
/-- C2, refuted as stated: with a timeout of one year and the clock one nanosecond past
it, node `10` of the reachable state `twoSensors` has `now - LastRescan > timeout`, but the
`float64` seconds of the two durations are equal, so `RemoveSensorFromNode(10, node)`
leaves the node and its series in place. -/
theorem one_year_timeout_keeps_node :
    Reachable (31536000 * 10 ^ 9) twoSensors
      ∧ twoSensors.nodes.lookup 10 = some twoSensorsNode
      ∧ (31536000 * 10 ^ 9 + 1 : Int) - twoSensorsNode.LastRescan > 31536000 * 10 ^ 9
      ∧ Duration.Seconds (Time.Sub (31536000 * 10 ^ 9 + 1) twoSensorsNode.LastRescan)
          = Duration.Seconds (31536000 * 10 ^ 9)
      ∧ (RemoveSensorFromNode 10 twoSensorsNode (31536000 * 10 ^ 9 + 1) (31536000 * 10 ^ 9)
          twoSensors).nodes.lookup 10 = some twoSensorsNode
      ∧ (RemoveSensorFromNode 10 twoSensorsNode (31536000 * 10 ^ 9 + 1) (31536000 * 10 ^ 9)
          twoSensors).messagesPublished.lookup (fmtX 10, fmtX 1)
          = some (float64 0x41AC0000) :=
  ⟨twoSensors_reachable _, rfl, by decide, by decide, rfl, by decide⟩

/-- C3: for a node `n` of the registry with `now - LastRescan(n) <= timeout` at its call, a
sweep over all entries of the nodes map, in any order, leaves `n` in the map with the same
entry (sensor map, readings and `LastRescan`) and leaves every series of `n` as it was,
whatever the calls for the other nodes evict. -/
theorem sweep_keeps_fresh_node (st : State) (order : List (Sigma fun _ : Nat => ESP8266_obj))
    (clock : Nat → Int) (timeout : Int) (n : Nat) (node : ESP8266_obj)
    (hperm : order.Perm st.nodes.entries) (hn : st.nodes.lookup n = some node)
    (hfresh : clock n - node.LastRescan ≤ timeout) :
    (sweep order clock timeout st).nodes.lookup n = some node
      ∧ ∀ a : Nat,
          (sweep order clock timeout st).messagesPublished.lookup (fmtX n, fmtX a)
            = st.messagesPublished.lookup (fmtX n, fmtX a) := by
  have hentries : ∀ e ∈ order, e.1 = n → clock n - e.2.LastRescan ≤ timeout := by
    intro e he hen
    have hmem : e ∈ st.nodes.entries := hperm.subset he
    obtain ⟨k, nd⟩ := e
    simp only at hen
    subst hen
    have hnd : nd ∈ st.nodes.lookup k := AList.mem_lookup_iff.2 hmem
    rw [hn] at hnd
    cases hnd
    exact hfresh
  have h := sweep_frame order clock timeout n st hentries
  exact ⟨h.1.trans hn, fun a => h.2 (fmtX n, fmtX a) rfl⟩

set_option maxRecDepth 100000 in
/-- Witness of C3: in `staleAndFresh` a sweep at time `61` with timeout `60` evicts the
stale node `10` and leaves the fresh node `11` and its series untouched. -/
theorem sweep_keeps_fresh_node_scenario :
    (sweep staleAndFresh.nodes.entries (fun _ => 61) 60 staleAndFresh).nodes.lookup 10 = none
      ∧ (sweep staleAndFresh.nodes.entries (fun _ => 61) 60 staleAndFresh).nodes.lookup 11
          = some
            { sensor := (∅ : AList (fun _ : Nat => Ds28b20Temperautre)).insert 1
                { unix_time := 1050, temperature := 0x41A00000, gap := 0 }
              LastRescan := 50 }
      ∧ (sweep staleAndFresh.nodes.entries (fun _ => 61) 60
            staleAndFresh).messagesPublished.lookup (fmtX 11, fmtX 1)
          = some (float64 0x41A00000) :=
  have h := sweep_keeps_fresh_node staleAndFresh staleAndFresh.nodes.entries (fun _ => 61) 60 11
    { sensor := (∅ : AList (fun _ : Nat => Ds28b20Temperautre)).insert 1
        { unix_time := 1050, temperature := 0x41A00000, gap := 0 }
      LastRescan := 50 } (List.Perm.refl _) rfl (by decide)
  ⟨by decide, h.1, (h.2 1).trans (by decide)⟩

/-- C5: in every state reached from the empty registry and empty exporter by a sequence
`ops` of updates and sweeps run one after the other, every sensor entry of the registry
holds the reading stored by the latest update for its pair and has a series under the
labels `(fmtX node, fmtX sensor)` whose value is the temperature of that reading; and an
update for one pair leaves the series of every other pair as it was. -/
theorem reachable_registry_exported (timeout : Int) (ops : List Op) (st : State)
    (hrun : Run timeout ops st) :
    (∀ (mac : Nat) (node : ESP8266_obj) (a : Nat) (r : Ds28b20Temperautre),
        st.nodes.lookup mac = some node → node.sensor.lookup a = some r →
          lastStored ops mac a = some r
            ∧ st.messagesPublished.lookup (fmtX mac, fmtX a) = some (float64 r.temperature))
      ∧ ∀ (mac : Nat) (payload : List Byte) (now : Int) (mac1 a1 : Nat),
          ¬ (mac1 = mac ∧ a1 = (unpack payload).1) →
            (DS18b20ReadTemperature mac payload now st).messagesPublished.lookup
                (fmtX mac1, fmtX a1)
              = st.messagesPublished.lookup (fmtX mac1, fmtX a1) :=
  ⟨fun mac node a r h1 h2 =>
      ⟨hrun.lastStored_eq mac node a r h1 h2, hrun.exported mac node a r h1 h2⟩,
    fun mac payload now mac1 a1 h =>
      DS18b20ReadTemperature_series_ne mac payload now st mac1 a1 h⟩

theorem staleAndFresh_swept_run :
    Run 60
      [Op.sweep staleAndFresh.nodes.entries (fun _ => 61),
        Op.update 11 (encode 1 { unix_time := 1050, temperature := 0x41A00000, gap := 0 }) 50,
        Op.update 10 (encode 2 { unix_time := 1001, temperature := 0x41B00000, gap := 0 }) 0,
        Op.update 10 (encode 1 { unix_time := 1000, temperature := 0x41AC0000, gap := 0 }) 0]
      (sweep staleAndFresh.nodes.entries (fun _ => 61) 60 staleAndFresh) :=
  Run.sweep _ _ (Run.update _ _ _ (twoSensors_run 60)) (List.Perm.refl _)

set_option maxRecDepth 100000 in
/-- Witness of C5: after three updates and a sweep, the one remaining sensor entry holds
the reading of its latest update and its series holds that temperature. -/
theorem reachable_registry_exported_scenario :
    lastStored
        [Op.sweep staleAndFresh.nodes.entries (fun _ => 61),
          Op.update 11 (encode 1 { unix_time := 1050, temperature := 0x41A00000, gap := 0 }) 50,
          Op.update 10 (encode 2 { unix_time := 1001, temperature := 0x41B00000, gap := 0 }) 0,
          Op.update 10 (encode 1 { unix_time := 1000, temperature := 0x41AC0000, gap := 0 }) 0]
        11 1
        = some { unix_time := 1050, temperature := 0x41A00000, gap := 0 }
      ∧ (sweep staleAndFresh.nodes.entries (fun _ => 61) 60
          staleAndFresh).messagesPublished.lookup (fmtX 11, fmtX 1)
        = some (float64 0x41A00000) :=
  (reachable_registry_exported 60 _ _ staleAndFresh_swept_run).1 11
    { sensor := (∅ : AList (fun _ : Nat => Ds28b20Temperautre)).insert 1
        { unix_time := 1050, temperature := 0x41A00000, gap := 0 }
      LastRescan := 50 } 1 { unix_time := 1050, temperature := 0x41A00000, gap := 0 } rfl rfl

/-! ## The regular expression -/

theorem matchToks_lit_cons (c d : Char) (ts : List Tok) (s : List Char) :
    matchToks (Tok.lit c :: ts) (d :: s)
      = if c = d then
          match matchToks ts s with
          | some (m, caps) => some (d :: m, caps)
          | none => none
        else none := by
  simp only [matchToks]

theorem lits_cons (c : Char) (p : List Char) : lits (c :: p) = Tok.lit c :: lits p := rfl

theorem matchToks_lits_append (p : List Char) (ts : List Tok) (s : List Char) :
    matchToks (lits p ++ ts) (p ++ s)
      = match matchToks ts s with
        | some (m, caps) => some (p ++ m, caps)
        | none => none := by
  induction p with
  | nil =>
    simp only [lits, List.map_nil, List.nil_append]
    cases matchToks ts s with
    | none => rfl
    | some x => rfl
  | cons c p ih =>
    rw [lits_cons, List.cons_append, List.cons_append, matchToks_lit_cons, if_pos rfl, ih]
    cases matchToks ts s with
    | none => rfl
    | some x => rfl

theorem matchToks_lits_some (p : List Char) (ts : List Tok) :
    ∀ (s m : List Char) (caps : List (List Char)),
      matchToks (lits p ++ ts) s = some (m, caps) →
        ∃ s1 m1, s = p ++ s1 ∧ m = p ++ m1 ∧ matchToks ts s1 = some (m1, caps) := by
  induction p with
  | nil =>
    intro s m caps h
    exact ⟨s, m, rfl, rfl, h⟩
  | cons c p ih =>
    intro s m caps h
    cases s with
    | nil => simp [lits, matchToks] at h
    | cons d s =>
      rw [lits_cons, List.cons_append, matchToks_lit_cons] at h
      by_cases hcd : c = d
      · subst hcd
        rw [if_pos rfl] at h
        cases hm : matchToks (lits p ++ ts) s with
        | none => rw [hm] at h; cases h
        | some x =>
          obtain ⟨m0, caps0⟩ := x
          rw [hm] at h
          simp only [Option.some.injEq, Prod.mk.injEq] at h
          obtain ⟨s1, m1, hs, hm1, hrest⟩ := ih s m0 caps0 hm
          refine ⟨s1, m1, ?_, ?_, ?_⟩
          · rw [hs]; rfl
          · rw [← h.1, hm1]; rfl
          · rw [← h.2]; exact hrest
      · simp [hcd] at h

theorem tryRun_some (k : List Char → Option (List Char × List (List Char))) (s : List Char) :
    ∀ (n : Nat) (m : List Char) (caps : List (List Char)), tryRun k s n = some (m, caps) →
      ∃ j m1 caps1, 1 ≤ j ∧ j ≤ n ∧ k (s.drop j) = some (m1, caps1)
        ∧ m = s.take j ++ m1 ∧ caps = s.take j :: caps1 := by
  intro n
  induction n with
  | zero => intro m caps h; simp [tryRun] at h
  | succ n ih =>
    intro m caps h
    simp only [tryRun] at h
    cases hk : k (s.drop (n + 1)) with
    | none =>
      rw [hk] at h
      obtain ⟨j, m1, caps1, h1, h2, h3⟩ := ih m caps h
      exact ⟨j, m1, caps1, h1, by omega, h3⟩
    | some x =>
      obtain ⟨m0, caps0⟩ := x
      rw [hk] at h
      simp only [Option.some.injEq, Prod.mk.injEq] at h
      exact ⟨n + 1, m0, caps0, by omega, le_rfl, hk, h.1.symm, h.2.symm⟩

theorem tryRun_longest (k : List Char → Option (List Char × List (List Char))) (s : List Char)
    (n : Nat) (m1 : List Char) (caps1 : List (List Char)) (hn : 1 ≤ n)
    (hk : k (s.drop n) = some (m1, caps1)) :
    tryRun k s n = some (s.take n ++ m1, s.take n :: caps1) := by
  obtain ⟨n, rfl⟩ : ∃ n0, n = n0 + 1 := ⟨n - 1, by omega⟩
  simp only [tryRun, hk]

theorem isMacChar_slash : isMacChar '/' = false := by decide

theorem takeWhile_isMacChar (h rest : List Char) (hh : ∀ c ∈ h, isMacChar c = true) :
    (h ++ '/' :: rest).takeWhile isMacChar = h := by
  induction h with
  | nil => simp [List.takeWhile, isMacChar_slash]
  | cons c h ih =>
    rw [List.cons_append, List.takeWhile_cons, if_pos (hh c (List.mem_cons_self _ _)),
      ih (fun c1 hc1 => hh c1 (List.mem_cons_of_mem _ hc1))]

theorem take_takeWhile_all (p : Char → Bool) (s : List Char) (j : Nat)
    (hj : j ≤ (s.takeWhile p).length) : ∀ c ∈ s.take j, p c = true := by
  induction s generalizing j with
  | nil => intro c hc; simp at hc
  | cons d s ih =>
    intro c hc
    cases j with
    | zero => simp at hc
    | succ j =>
      by_cases hd : p d = true
      · simp only [List.takeWhile, hd, List.length_cons] at hj
        simp only [List.take_succ_cons, List.mem_cons] at hc
        rcases hc with rfl | hc
        · exact hd
        · exact ih j (by omega) c hc
      · simp [List.takeWhile, hd] at hj

theorem matchToks_group (ts : List Tok) (s : List Char) :
    matchToks (Tok.Esp_MAC :: ts) s
      = tryRun (matchToks ts) s (s.takeWhile isMacChar).length := by
  simp only [matchToks]

theorem matchToks_lits_only (t post : List Char) :
    matchToks (lits t) (t ++ post) = some (t, []) := by
  have h := matchToks_lits_append t [] post
  rw [List.append_nil] at h
  rw [h]
  simp [matchToks]

theorem matchToks_lits_only_some (t s m : List Char) (caps : List (List Char))
    (h : matchToks (lits t) s = some (m, caps)) :
    ∃ post, s = t ++ post ∧ m = t ∧ caps = [] := by
  have h1 : matchToks (lits t ++ []) s = some (m, caps) := by rw [List.append_nil]; exact h
  obtain ⟨s1, m1, hs, hm, hrest⟩ := matchToks_lits_some t [] s m caps h1
  simp only [matchToks, Option.some.injEq, Prod.mk.injEq] at hrest
  refine ⟨s1, hs, ?_, hrest.2.symm⟩
  rw [hm, ← hrest.1, List.append_nil]

theorem matchToks_pattern (P h post : List Char) (hne : h ≠ [])
    (hh : ∀ c ∈ h, isMacChar c = true) :
    matchToks (lits P ++ Tok.lit '/' :: Tok.Esp_MAC :: lits "/temperature".toList)
        (P ++ '/' :: (h ++ ("/temperature".toList ++ post)))
      = some (P ++ '/' :: (h ++ "/temperature".toList), [h]) := by
  have htw : (h ++ ("/temperature".toList ++ post)).takeWhile isMacChar = h :=
    takeWhile_isMacChar h ("temperature".toList ++ post) hh
  have hlen : 1 ≤ h.length := by
    cases h with
    | nil => exact absurd rfl hne
    | cons c h => simp
  have hrun := tryRun_longest (matchToks (lits "/temperature".toList))
    (h ++ ("/temperature".toList ++ post)) h.length "/temperature".toList [] hlen
    (by rw [List.drop_left]; exact matchToks_lits_only _ post)
  rw [List.take_left] at hrun
  rw [matchToks_lits_append, matchToks_lit_cons, if_pos rfl, matchToks_group, htw, hrun]

theorem matchToks_pattern_some (P s m : List Char) (caps : List (List Char))
    (hm : matchToks (lits P ++ Tok.lit '/' :: Tok.Esp_MAC :: lits "/temperature".toList) s
      = some (m, caps)) :
    ∃ h post, s = P ++ '/' :: (h ++ ("/temperature".toList ++ post)) ∧ h ≠ []
      ∧ (∀ c ∈ h, isMacChar c = true) ∧ caps = [h]
      ∧ m = P ++ '/' :: (h ++ "/temperature".toList) := by
  obtain ⟨s1, m1, hs, hm1, h1⟩ := matchToks_lits_some P _ s m caps hm
  cases s1 with
  | nil => simp [matchToks] at h1
  | cons d s2 =>
    rw [matchToks_lit_cons] at h1
    by_cases hd : '/' = d
    · subst hd
      rw [if_pos rfl] at h1
      cases h2 : matchToks (Tok.Esp_MAC :: lits "/temperature".toList) s2 with
      | none => rw [h2] at h1; cases h1
      | some x =>
        obtain ⟨m2, caps2⟩ := x
        rw [h2] at h1
        simp only [Option.some.injEq, Prod.mk.injEq] at h1
        rw [matchToks_group] at h2
        obtain ⟨j, m3, caps3, hj1, hj2, hk, hm2, hcaps⟩ := tryRun_some _ _ _ _ _ h2
        obtain ⟨post, hdrop, hm3, hcaps3⟩ := matchToks_lits_only_some _ _ _ _ hk
        have hjlen : j ≤ s2.length :=
          le_trans hj2 (List.takeWhile_sublist _).length_le
        refine ⟨s2.take j, post, ?_, ?_, take_takeWhile_all _ _ _ hj2, ?_, ?_⟩
        · rw [hs, ← hdrop, List.take_append_drop]
        · intro hnil
          have := congrArg List.length hnil
          rw [List.length_take, List.length_nil] at this
          omega
        · rw [← h1.2, hcaps, hcaps3]
        · rw [hm1, ← h1.1, hm2, hm3]
    · rw [if_neg hd] at h1
      cases h1

theorem FindStringSubmatch_of_match (re : List Tok) (s m : List Char)
    (caps : List (List Char)) (h : matchToks re s = some (m, caps)) :
    FindStringSubmatch re s = some (m :: caps) := by
  cases s with
  | nil => simp only [FindStringSubmatch, h]
  | cons c s => simp only [FindStringSubmatch, h]

theorem FindStringSubmatch_of_match_inside (re : List Tok) (s m : List Char)
    (caps : List (List Char)) (h : matchToks re s = some (m, caps)) :
    ∀ pre : List Char, FindStringSubmatch re (pre ++ s) ≠ none := by
  intro pre
  induction pre with
  | nil =>
    rw [List.nil_append, FindStringSubmatch_of_match re s m caps h]
    simp
  | cons c pre ih =>
    rw [List.cons_append]
    simp only [FindStringSubmatch]
    cases matchToks re (c :: (pre ++ s)) with
    | none => exact ih
    | some x => simp

theorem FindStringSubmatch_some (re : List Tok) :
    ∀ (t : List Char) (group : List (List Char)), FindStringSubmatch re t = some group →
      ∃ pre s m caps, t = pre ++ s ∧ matchToks re s = some (m, caps) ∧ group = m :: caps := by
  intro t
  induction t with
  | nil =>
    intro group h
    simp only [FindStringSubmatch] at h
    cases hm : matchToks re [] with
    | none => rw [hm] at h; cases h
    | some x =>
      obtain ⟨m, caps⟩ := x
      rw [hm] at h
      cases h
      exact ⟨[], [], m, caps, rfl, hm, rfl⟩
  | cons c t ih =>
    intro group h
    simp only [FindStringSubmatch] at h
    cases hm : matchToks re (c :: t) with
    | none =>
      rw [hm] at h
      obtain ⟨pre, s, m, caps, ht, hs, hg⟩ := ih group h
      exact ⟨c :: pre, s, m, caps, by rw [ht]; rfl, hs, hg⟩
    | some x =>
      obtain ⟨m, caps⟩ := x
      rw [hm] at h
      cases h
      exact ⟨[], c :: t, m, caps, rfl, hm, rfl⟩

/-! ## `ParseInt` on the captured group -/

theorem isMacChar_digitVal (c : Char) (h : isMacChar c = true) :
    ∃ d, digitVal c = some d ∧ d < 16 := by
  simp only [isMacChar, List.mem_cons, List.mem_singleton, decide_eq_true_eq] at h
  rcases h with rfl | rfl | rfl | rfl | rfl | rfl | rfl | rfl | rfl | rfl | rfl | rfl | rfl | rfl
    | rfl | h
  all_goals first
    | exact ⟨_, rfl, by decide⟩
    | (simp at h; subst h; exact ⟨_, rfl, by decide⟩)

theorem isMacChar_not_sign (c : Char) (h : isMacChar c = true) : ¬ (c = '+' ∨ c = '-') := by
  rintro (rfl | rfl) <;> revert h <;> decide

theorem le_foldl_digits (h : List Char) : ∀ n : Nat,
    n ≤ h.foldl (fun n c => n * 16 + (digitVal c).getD 0) n := by
  induction h with
  | nil => intro n; exact le_rfl
  | cons c cs ih =>
    intro n
    rw [List.foldl_cons]
    exact le_trans (by omega) (ih _)

theorem ParseUintLoop_eq (h : List Char) (hh : ∀ c ∈ h, isMacChar c = true) :
    ∀ n : Nat, n < 2 ^ 64 →
      ParseUintLoop h n
        = if h.foldl (fun n c => n * 16 + (digitVal c).getD 0) n < 2 ^ 64 then
            .ok (h.foldl (fun n c => n * 16 + (digitVal c).getD 0) n)
          else .error .ErrRange := by
  induction h with
  | nil =>
    intro n hn
    simp only [ParseUintLoop, List.foldl_nil]
    rw [if_pos hn]
  | cons c cs ih =>
    intro n hn
    obtain ⟨d, hd, hd16⟩ := isMacChar_digitVal c (hh c (List.mem_cons_self _ _))
    have hge := le_foldl_digits cs (n * 16 + d)
    simp only [ParseUintLoop, hd, List.foldl_cons, Option.getD_some, not_le.2 hd16, if_false]
    by_cases hcut : (2 ^ 64 - 1) / 16 + 1 ≤ n
    · rw [if_pos hcut, if_neg]
      omega
    · rw [if_neg hcut]
      have hn16 : n * 16 % 2 ^ 64 = n * 16 := Nat.mod_eq_of_lt (by omega)
      have hn1 : (n * 16 + d) % 2 ^ 64 = n * 16 + d := Nat.mod_eq_of_lt (by omega)
      simp only [hn16, hn1]
      rw [if_neg (by omega)]
      exact ih (fun c1 hc1 => hh c1 (List.mem_cons_of_mem _ hc1)) _ (by omega)

theorem ParseInt_of_ParseUint_ok (c : Char) (t : List Char) (hsign : ¬ (c = '+' ∨ c = '-'))
    (v : Nat) (hu : ParseUint (c :: t) = .ok v) :
    ParseInt (c :: t) = if v < 2 ^ 63 then .ok (v : Int) else .error .ErrRange := by
  have hminus : (c = '-') = False := eq_false (fun hc => hsign (Or.inr hc))
  have hplus : (c = '+') = False := eq_false (fun hc => hsign (Or.inl hc))
  simp only [ParseInt, hplus, hminus, or_self, if_false, hu, decide_False, Bool.false_eq_true,
    false_and, not_false_eq_true, true_and]
  by_cases h63 : v < 2 ^ 63
  · rw [if_neg (by omega), if_pos h63]
  · rw [if_pos (by omega), if_neg h63]

theorem ParseInt_of_ParseUint_range (c : Char) (t : List Char)
    (hsign : ¬ (c = '+' ∨ c = '-')) (hu : ParseUint (c :: t) = .error .ErrRange) :
    ParseInt (c :: t) = .error .ErrRange := by
  have hminus : (c = '-') = False := eq_false (fun hc => hsign (Or.inr hc))
  have hplus : (c = '+') = False := eq_false (fun hc => hsign (Or.inl hc))
  simp only [ParseInt, hplus, hminus, or_self, if_false, hu, decide_False, Bool.false_eq_true,
    false_and, not_false_eq_true, true_and]
  rw [if_pos (by norm_num)]

theorem ParseInt_group (h : List Char) (hne : h ≠ []) (hh : ∀ c ∈ h, isMacChar c = true) :
    ParseInt h = if hexValue h < 2 ^ 63 then .ok (hexValue h : Int) else .error .ErrRange := by
  cases h with
  | nil => exact absurd rfl hne
  | cons c t =>
    have hsign := isMacChar_not_sign c (hh c (List.mem_cons_self _ _))
    have hu : ParseUint (c :: t) = ParseUintLoop (c :: t) 0 := by simp [ParseUint]
    rw [ParseUintLoop_eq (c :: t) hh 0 (by norm_num)] at hu
    change ParseUint (c :: t)
      = if hexValue (c :: t) < 2 ^ 64 then .ok (hexValue (c :: t)) else .error .ErrRange at hu
    by_cases h64 : hexValue (c :: t) < 2 ^ 64
    · rw [if_pos h64] at hu
      exact ParseInt_of_ParseUint_ok c t hsign _ hu
    · rw [if_neg h64] at hu
      rw [ParseInt_of_ParseUint_range c t hsign hu, if_neg (by omega)]

/-! ## The router -/

theorem ReTemperature_plain (Topic : String) (hT : ∀ c ∈ Topic.toList, regexMeta c = false) :
    ReTemperature Topic
      = some (lits Topic.toList ++ Tok.lit '/' :: Tok.Esp_MAC :: lits "/temperature".toList) := by
  unfold ReTemperature
  rw [if_neg]
  intro hany
  obtain ⟨c, hc, hm⟩ := List.any_eq_true.1 hany
  rw [hT c hc] at hm
  cases hm

theorem uint64_natCast (v : Nat) (hv : v < 2 ^ 63) : uint64 (v : Int) = v := by
  unfold uint64
  have h : ((v : Int) % 2 ^ 64) = (v : Int) := Int.emod_eq_of_lt (by omega) (by omega)
  rw [h]
  simp

theorem route_of_pattern (P h post : List Char) (topic : String) (hne : h ≠ [])
    (hh : ∀ c ∈ h, isMacChar c = true)
    (htopic : topic.toList = P ++ '/' :: (h ++ ("/temperature".toList ++ post))) :
    route (lits P ++ Tok.lit '/' :: Tok.Esp_MAC :: lits "/temperature".toList) topic
      = if hexValue h < 2 ^ 63 then Route.call (hexValue h) else Route.fatal := by
  have hfind := FindStringSubmatch_of_match _ _ _ _ (matchToks_pattern P h post hne hh)
  unfold route
  rw [htopic, hfind]
  simp only [List.getD_cons_succ, List.getD_cons_zero]
  rw [ParseInt_group h hne hh]
  by_cases h63 : hexValue h < 2 ^ 63
  · simp only [if_pos h63, uint64_natCast _ h63]
  · simp only [if_neg h63]

theorem route_ignore_of_none (re : List Tok) (topic : String)
    (h : FindStringSubmatch re topic.toList = none) : route re topic = Route.ignore := by
  unfold route
  rw [h]

theorem FindStringSubmatch_pattern_none (P t : List Char)
    (hno : ¬ ∃ pre h post, h ≠ [] ∧ (∀ c ∈ h, isMacChar c = true)
      ∧ t = pre ++ (P ++ '/' :: (h ++ ("/temperature".toList ++ post)))) :
    FindStringSubmatch (lits P ++ Tok.lit '/' :: Tok.Esp_MAC :: lits "/temperature".toList) t
      = none := by
  cases hf : FindStringSubmatch
      (lits P ++ Tok.lit '/' :: Tok.Esp_MAC :: lits "/temperature".toList) t with
  | none => rfl
  | some group =>
    exfalso
    obtain ⟨pre, s, m, caps, ht, hm, _⟩ := FindStringSubmatch_some _ t group hf
    obtain ⟨h, post, hs, hne, hh, _, _⟩ := matchToks_pattern_some P s m caps hm
    exact hno ⟨pre, h, post, hne, hh, by rw [ht, hs]⟩

theorem pattern_absent_of_none (P t : List Char)
    (hf : FindStringSubmatch
      (lits P ++ Tok.lit '/' :: Tok.Esp_MAC :: lits "/temperature".toList) t = none) :
    ¬ ∃ pre h post, h ≠ [] ∧ (∀ c ∈ h, isMacChar c = true)
      ∧ t = pre ++ (P ++ '/' :: (h ++ ("/temperature".toList ++ post))) := by
  rintro ⟨pre, h, post, hne, hh, ht⟩
  have := FindStringSubmatch_of_match_inside _ _ _ _ (matchToks_pattern P h post hne hh) pre
  rw [← ht] at this
  exact this hf

theorem toList_topic (Topic h : String) :
    (Topic ++ "/" ++ h ++ "/temperature").toList
      = Topic.toList ++ '/' :: (h.toList ++ ("/temperature".toList ++ [])) := by
  simp [String.toList]

theorem handleMessage_exit_iff (re : List Tok) (msg : Message) (now : Int) (st : State) :
    handleMessage re msg now st = Step.exit
      ↔ ∃ group e, FindStringSubmatch re msg.topic.toList = some group
          ∧ ParseInt (group.getD 1 []) = .error e := by
  unfold handleMessage route
  cases hf : FindStringSubmatch re msg.topic.toList with
  | none =>
    constructor
    · intro h; cases h
    · rintro ⟨g, e, hg, _⟩; cases hg
  | some group =>
    cases hp : ParseInt (group.getD 1 []) with
    | error e =>
      dsimp only
      rw [show ParseInt (List.getD group 1 []) = .error e from hp]
      exact ⟨fun _ => ⟨group, e, rfl, hp⟩, fun _ => rfl⟩
    | ok mac =>
      dsimp only
      rw [show ParseInt (List.getD group 1 []) = .ok mac from hp]
      constructor
      · intro h; cases h
      · rintro ⟨g, e, hg, he⟩
        cases hg
        rw [hp] at he
        cases he

theorem getLast?_temperature (h : List Char) : ∀ c : Char,
    (c :: (h ++ "/temperature".toList)).getLast? = some 'e' := by
  induction h with
  | nil => intro c; rfl
  | cons d h ih =>
    intro c
    rw [List.cons_append, List.getLast?_cons_cons]
    exact ih d

/-- C7, as far as the code goes and where it stops: for a `conf.Topic` without special
characters and a non-empty `h` over `0-9ABCDEF`, the topic `<Topic>/<h>/temperature` matches
with `h` as captured group. The node id passed to `DS18b20ReadTemperature` is the unsigned
value of `h` when that value is below `2^63`; for every larger value, also those that fit
an unsigned 64-bit integer, `ParseInt` fails and the loop body ends the process. -/
theorem route_temperature_topic (Topic h : String)
    (hT : ∀ c ∈ Topic.toList, regexMeta c = false) (hne : h.toList ≠ [])
    (hh : ∀ c ∈ h.toList, isMacChar c = true) :
    ∃ re, ReTemperature Topic = some re
      ∧ FindStringSubmatch re (Topic ++ "/" ++ h ++ "/temperature").toList
          = some [(Topic ++ "/" ++ h ++ "/temperature").toList, h.toList]
      ∧ (hexValue h.toList < 2 ^ 63 →
          route re (Topic ++ "/" ++ h ++ "/temperature") = Route.call (hexValue h.toList))
      ∧ (2 ^ 63 ≤ hexValue h.toList →
          route re (Topic ++ "/" ++ h ++ "/temperature") = Route.fatal) := by
  have hroute := route_of_pattern Topic.toList h.toList [] _ hne hh (toList_topic Topic h)
  refine ⟨_, ReTemperature_plain Topic hT, ?_, ?_, ?_⟩
  · have hm := matchToks_pattern Topic.toList h.toList [] hne hh
    rw [toList_topic, FindStringSubmatch_of_match _ _ _ _ hm, List.append_nil]
  · intro hsmall
    rw [hroute, if_pos hsmall]
  · intro hbig
    rw [hroute, if_neg (by omega)]

/-- C7 at the failing input: with `conf.Topic = "sensors"` the segment `8000000000000000`
has the value `2^63`, which fits an unsigned 64-bit integer, and the topic
`sensors/8000000000000000/temperature` ends the process. -/
theorem route_top_bit_segment :
    (hexValue "8000000000000000".toList = 2 ^ 63 ∧ 2 ^ 63 < 2 ^ 64)
      ∧ ∃ re, ReTemperature "sensors" = some re
          ∧ route re ("sensors" ++ "/" ++ "8000000000000000" ++ "/temperature")
              = Route.fatal := by
  obtain ⟨re, hre, _, _, hfatal⟩ :=
    route_temperature_topic "sensors" "8000000000000000" (by decide) (by decide) (by decide)
  exact ⟨⟨by decide, by decide⟩, re, hre, hfatal (by decide)⟩

/-- C6, refuted as stated: with `conf.Topic = "sensors"` the message with topic
`sensors/1FFFFFFFFFFFFFFFF/temperature` ends the process, and the message queued after it is
never handled. -/
theorem fatal_message_ends_loop :
    (ReTemperature "sensors").map
        (fun re => (handleMessage re
          { topic := "sensors/1FFFFFFFFFFFFFFFF/temperature", payload := [] } 0
          State.init).exited) = some true
      ∧ (ReTemperature "sensors").map
        (fun re => (messageLoop re
          [({ topic := "sensors/1FFFFFFFFFFFFFFFF/temperature", payload := [] }, 0),
            ({ topic := "sensors/1A2B3C/temperature", payload := scenarioPayload }, 1)]
          State.init).exited) = some true := by
  refine ⟨by decide, by decide⟩

/-- C6, amended: handling a message ends the process exactly when the topic matches and
`strconv.ParseInt` returns an error for the captured segment, which is the case for every
segment whose value does not fit 64 bits. A message whose topic does not match is dropped
with the state unchanged, a message whose segment has a value below `2^63` is passed to
`DS18b20ReadTemperature`, and after either the loop goes on with the next message; once a
message was fatal no later message is handled. -/
theorem handleMessage_outcomes (Topic : String)
    (hT : ∀ c ∈ Topic.toList, regexMeta c = false) :
    ∃ re, ReTemperature Topic = some re
      ∧ (∀ (msg : Message) (now : Int) (st : State),
          handleMessage re msg now st = Step.exit
            ↔ ∃ group e, FindStringSubmatch re msg.topic.toList = some group
                ∧ ParseInt (group.getD 1 []) = .error e)
      ∧ (∀ (h : String) (payload : List Byte) (now : Int) (st : State), h.toList ≠ [] →
          (∀ c ∈ h.toList, isMacChar c = true) → 2 ^ 64 ≤ hexValue h.toList →
            handleMessage re
              { topic := Topic ++ "/" ++ h ++ "/temperature", payload := payload } now st
              = Step.exit)
      ∧ (∀ (h : String) (payload : List Byte) (now : Int) (st : State), h.toList ≠ [] →
          (∀ c ∈ h.toList, isMacChar c = true) → hexValue h.toList < 2 ^ 63 →
            handleMessage re
              { topic := Topic ++ "/" ++ h ++ "/temperature", payload := payload } now st
              = Step.next (DS18b20ReadTemperature (hexValue h.toList) payload now st))
      ∧ (∀ (msg : Message) (now : Int) (st : State),
          FindStringSubmatch re msg.topic.toList = none →
            handleMessage re msg now st = Step.next st)
      ∧ ∀ (msg : Message) (now : Int) (rest : List (Message × Int)) (st : State),
          (handleMessage re msg now st = Step.exit →
              messageLoop re ((msg, now) :: rest) st = Step.exit)
            ∧ ∀ st1, handleMessage re msg now st = Step.next st1 →
                messageLoop re ((msg, now) :: rest) st = messageLoop re rest st1 := by
  refine ⟨_, ReTemperature_plain Topic hT, ?_, ?_, ?_, ?_, ?_⟩
  · intro msg now st
    exact handleMessage_exit_iff _ msg now st
  · intro h payload now st hne hh hbig
    unfold handleMessage
    simp only
    rw [route_of_pattern Topic.toList h.toList [] _ hne hh (toList_topic Topic h),
      if_neg (by omega)]
  · intro h payload now st hne hh hsmall
    unfold handleMessage
    simp only
    rw [route_of_pattern Topic.toList h.toList [] _ hne hh (toList_topic Topic h),
      if_pos hsmall]
  · intro msg now st hf
    unfold handleMessage
    rw [route_ignore_of_none _ _ hf]
  · intro msg now rest st
    constructor
    · intro hx
      simp only [messageLoop, hx]
    · intro st1 hx
      simp only [messageLoop, hx]

/-- Witness of the amended C6 for `conf.Topic = "sensors"`. -/
theorem handleMessage_outcomes_sensors :
    ∃ re, ReTemperature "sensors" = some re
      ∧ handleMessage re
          { topic := "sensors" ++ "/" ++ "1FFFFFFFFFFFFFFFF" ++ "/temperature"
            payload := [] }
          0 State.init = Step.exit
      ∧ handleMessage re
          { topic := "sensors" ++ "/" ++ "1A2B3C" ++ "/temperature"
            payload := scenarioPayload }
          0 State.init
          = Step.next (DS18b20ReadTemperature (hexValue "1A2B3C".toList) scenarioPayload 0
              State.init) := by
  obtain ⟨re, hre, _, hfatal, hcall, _⟩ := handleMessage_outcomes "sensors" (by decide)
  exact ⟨re, hre,
    hfatal "1FFFFFFFFFFFFFFFF" [] 0 State.init (by decide) (by decide) (by decide),
    hcall "1A2B3C" scenarioPayload 0 State.init (by decide) (by decide) (by decide)⟩

/-- C8, refuted as stated: with `conf.Topic = "sensors"` the topic
`sensors/1A/temperature/extra` is not of the form `sensors/<h>/temperature` for any `h`,
yet the router matches it, calls `DS18b20ReadTemperature` with node id `0x1A` and the
registry gains that node. The same holds with text before the pattern. -/
theorem trailing_text_is_routed :
    (∀ h : List Char,
        "sensors/1A/temperature/extra".toList
          ≠ "sensors".toList ++ '/' :: (h ++ "/temperature".toList))
      ∧ (ReTemperature "sensors").map (fun re => route re "sensors/1A/temperature/extra")
          = some (Route.call 0x1A)
      ∧ (ReTemperature "sensors").bind
          (fun re => (handleMessage re
            { topic := "sensors/1A/temperature/extra", payload := scenarioPayload } 0
            State.init).state.map (fun st => (st.nodes.lookup 0x1A).isSome)) = some true
      ∧ State.init.nodes.lookup 0x1A = none
      ∧ (ReTemperature "sensors").map (fun re => route re "sensors/x/sensors/1A/temperature")
          = some (Route.call 0x1A) := by
  refine ⟨?_, by decide, by decide, by decide, by decide⟩
  intro h heq
  have hlast := congrArg List.getLast? heq
  have hrhs :
      ("sensors".toList ++ '/' :: (h ++ "/temperature".toList)).getLast? = some 'e' := by
    rw [List.getLast?_append, getLast?_temperature]
    rfl
  rw [hrhs] at hlast
  revert hlast
  decide

/-- C8, amended: for a `conf.Topic` without special characters and every topic that does
not contain, anywhere, the text `<Topic>/<h>/temperature` with `h` a non-empty string over
`0-9ABCDEF`, the router yields no match: `DS18b20ReadTemperature` is not called and the
state is unchanged. -/
theorem route_ignores_topic_without_pattern (Topic topic : String)
    (hT : ∀ c ∈ Topic.toList, regexMeta c = false)
    (hno : ¬ ∃ pre h post, h ≠ [] ∧ (∀ c ∈ h, isMacChar c = true)
      ∧ topic.toList
          = pre ++ (Topic.toList ++ '/' :: (h ++ ("/temperature".toList ++ post)))) :
    ∃ re, ReTemperature Topic = some re
      ∧ FindStringSubmatch re topic.toList = none
      ∧ route re topic = Route.ignore
      ∧ ∀ (payload : List Byte) (now : Int) (st : State),
          handleMessage re { topic := topic, payload := payload } now st = Step.next st := by
  have hf := FindStringSubmatch_pattern_none Topic.toList topic.toList hno
  refine ⟨_, ReTemperature_plain Topic hT, hf, route_ignore_of_none _ _ hf, ?_⟩
  intro payload now st
  unfold handleMessage
  rw [route_ignore_of_none _ _ hf]

/-- Witness of the amended C8: the rescan topic of the specification is ignored. -/
theorem route_ignores_rescan_topic :
    ∃ re, ReTemperature "sensors" = some re
      ∧ FindStringSubmatch re "sensors/1A2B3C/rescan_temperature".toList = none
      ∧ route re "sensors/1A2B3C/rescan_temperature" = Route.ignore
      ∧ ∀ (payload : List Byte) (now : Int) (st : State),
          handleMessage re
            { topic := "sensors/1A2B3C/rescan_temperature", payload := payload } now st
            = Step.next st :=
  route_ignores_topic_without_pattern "sensors" "sensors/1A2B3C/rescan_temperature" (by decide)
    (pattern_absent_of_none _ _ (by decide))

/-! ## Update and sweep without the lock -/

set_option maxRecDepth 100000 in
/-- C10, evaluated at a schedule the code admits, since neither `DS18b20ReadTemperature` nor
the ticker loop locks `NodesMutex`: node `10` holds sensors `1` and `2` and has expired;
the sweep runs the loop body of `RemoveSensorFromNode` for sensor `2`, then an update of
node `10` for sensor `3` at time `100` runs, then the sweep runs its loop body for sensor
`1`. Afterwards node `10`, updated at time `100`, is gone from the registry, while the
series of its sensor `3` is still exported. -/
theorem update_between_sweep_iterations :
    twoSensorsNode.sensor.keys = [2, 1]
      ∧ (removeSensor 10
          (DS18b20ReadTemperature 10
            (encode 3 { unix_time := 1100, temperature := 0x41A00000, gap := 0 }) 100
            (removeSensor 10 twoSensors 2)) 1).nodes.lookup 10 = none
      ∧ (removeSensor 10
          (DS18b20ReadTemperature 10
            (encode 3 { unix_time := 1100, temperature := 0x41A00000, gap := 0 }) 100
            (removeSensor 10 twoSensors 2)) 1).messagesPublished.lookup (fmtX 10, fmtX 3)
          = some (float64 0x41A00000)
      ∧ (DS18b20ReadTemperature 10
            (encode 3 { unix_time := 1100, temperature := 0x41A00000, gap := 0 }) 100
            (RemoveSensorFromNode 10 twoSensorsNode 61 60 twoSensors)).nodes.lookup 10
          = some
            { sensor := (∅ : AList (fun _ : Nat => Ds28b20Temperautre)).insert 3
                { unix_time := 1100, temperature := 0x41A00000, gap := 0 }
              LastRescan := 100 } := by
  refine ⟨by decide, by decide, by decide, rfl⟩

end MqttSensorExporter
